import Mathlib

/-!
Verification of the transforma workflow engine (src/src/commands/run.ts and
its step-execution variants) against its natural-language specification.

The JavaScript values flowing through a workflow (parsed JSON, CSV rows,
raw text) are modelled by the mutual inductive `JValue`/`JList`/`JFields`;
JSON numbers are modelled as integers.  `JSON.parse` and
`JSON.stringify(v, null, indent)` are modelled by `parseJson` and
`stringifyJson`.  File systems are association lists from names to string
contents; the orchestrator is explicit state passing over them.
-/

namespace Transforma

mutual

/-- A JavaScript/JSON value: null, boolean, number (modelled as an
integer), string, array or object. -/
inductive JValue : Type where
  | jnull : JValue
  | jbool : Bool → JValue
  | jnum : Int → JValue
  | jstr : String → JValue
  | jarr : JList → JValue
  | jobj : JFields → JValue

/-- A list of JSON values (elements of a JSON array). -/
inductive JList : Type where
  | nil : JList
  | cons : JValue → JList → JList

/-- The fields of a JSON object, in insertion order. -/
inductive JFields : Type where
  | nil : JFields
  | cons : String → JValue → JFields → JFields

end

mutual

def JValue.beq : JValue → JValue → Bool
  | .jnull, .jnull => true
  | .jbool a, .jbool b => a == b
  | .jnum a, .jnum b => a == b
  | .jstr a, .jstr b => a == b
  | .jarr a, .jarr b => JList.beq a b
  | .jobj a, .jobj b => JFields.beq a b
  | _, _ => false
termination_by structural a _ => a

def JList.beq : JList → JList → Bool
  | .nil, .nil => true
  | .cons a as, .cons b bs => JValue.beq a b && JList.beq as bs
  | _, _ => false
termination_by structural a _ => a

def JFields.beq : JFields → JFields → Bool
  | .nil, .nil => true
  | .cons k a as, .cons l b bs => k == l && JValue.beq a b && JFields.beq as bs
  | _, _ => false
termination_by structural a _ => a

end

/-- Build a `JList` from an ordinary Lean list. -/
def JList.ofList : List JValue → JList
  | [] => .nil
  | v :: vs => .cons v (JList.ofList vs)

/-- Build `JFields` from an ordinary Lean association list. -/
def JFields.ofList : List (String × JValue) → JFields
  | [] => .nil
  | (k, v) :: fs => .cons k v (JFields.ofList fs)

/-- Map a (non-recursive) function over the elements of a `JList`;
used to model `Array.prototype.map` on the top-level elements. -/
def JList.mapTop (f : JValue → JValue) : JList → JList
  | .nil => .nil
  | .cons v vs => .cons (f v) (JList.mapTop f vs)

/-- Map a (non-recursive) function over the values of an object's fields;
used to model the `Object.entries(...).forEach` loops of the source. -/
def JFields.mapVals (f : JValue → JValue) : JFields → JFields
  | .nil => .nil
  | .cons k v fs => .cons k (f v) (JFields.mapVals f fs)

/-! ## Decimal numerals (models of JS number-to-string and string-to-number) -/

/-- One decimal digit as a character. -/
def digitChar : Nat → Char
  | 0 => '0' | 1 => '1' | 2 => '2' | 3 => '3' | 4 => '4'
  | 5 => '5' | 6 => '6' | 7 => '7' | 8 => '8' | 9 => '9'
  | _ => '0'

/-- Is the character an ASCII decimal digit? -/
def isDigitCh (c : Char) : Bool :=
  48 ≤ c.toNat && c.toNat ≤ 57

/-- Decimal digits of `n`, most significant first (`fuel`-bounded; any
`fuel > n` is enough). -/
def natDigitsAux : Nat → Nat → List Char
  | 0, _ => []
  | fuel + 1, n =>
    if n < 10 then [digitChar n]
    else natDigitsAux fuel (n / 10) ++ [digitChar (n % 10)]

/-- Decimal representation of a natural number as characters. -/
def natToChars (n : Nat) : List Char :=
  natDigitsAux (n + 1) n

/-- Numeric value of a list of decimal digit characters. -/
def digitsVal (cs : List Char) : Nat :=
  cs.foldl (fun a c => a * 10 + (c.toNat - 48)) 0

/-- Decimal representation of an integer as characters (model of JS
number-to-string conversion for integral numbers). -/
def intToChars (n : Int) : List Char :=
  if n < 0 then '-' :: natToChars n.natAbs else natToChars n.toNat

/-! ## JS `String(value)` conversion (as used by `template` and by
`writeOutputFile` for non-object content) -/

mutual

/-- Model of JavaScript `String(value)`: strings unchanged, numbers in
decimal, `true`/`false`/`null`, arrays joined by commas (as
`Array.prototype.toString`), plain objects as `"[object Object]"`. -/
def jsString : JValue → String
  | .jstr s => s
  | .jnum n => String.mk (intToChars n)
  | .jbool true => "true"
  | .jbool false => "false"
  | .jnull => "null"
  | .jarr xs => jsStringItems xs
  | .jobj _ => "[object Object]"
termination_by structural v => v

/-- Comma-joined rendering of array elements; `null` renders as the
empty string, matching `Array.prototype.join`. -/
def jsStringItems : JList → String
  | .nil => ""
  | .cons .jnull .nil => ""
  | .cons v .nil => jsString v
  | .cons .jnull vs => "," ++ jsStringItems vs
  | .cons v vs => jsString v ++ "," ++ jsStringItems vs
termination_by structural xs => xs

end

/-! ## JSON serialization: model of `JSON.stringify(v, null, indent)` -/

/-- Whitespace inserted before an element at nesting depth `d` when the
indent width `w` is positive: a newline plus `w*d` spaces.  With `w = 0`
`JSON.stringify` emits no whitespace at all. -/
def indentChars (w d : Nat) : List Char :=
  if w = 0 then [] else '\n' :: List.replicate (w * d) ' '

/-- The gap after the colon of an object field: one space when an indent
width is given, nothing otherwise. -/
def colonGap (w : Nat) : List Char :=
  if w = 0 then [] else [' ']

/-- JSON string escaping for one character (the escapes `JSON.stringify`
uses for the characters that occur in this development). -/
def escChar (c : Char) : List Char :=
  if c = '"' then ['\\', '"']
  else if c = '\\' then ['\\', '\\']
  else if c = '\n' then ['\\', 'n']
  else if c = '\t' then ['\\', 't']
  else if c = '\r' then ['\\', 'r']
  else [c]

/-- JSON string escaping for a character list. -/
def escChars : List Char → List Char
  | [] => []
  | c :: cs => escChar c ++ escChars cs

/-- A JSON-quoted string: opening quote, escaped body, closing quote. -/
def serString (s : String) : List Char :=
  '"' :: (escChars s.data ++ ['"'])

mutual

/-- Model of `JSON.stringify(v, null, w)` at nesting depth `d`,
producing a character list. -/
def serValue (w d : Nat) : JValue → List Char
  | .jnull => ['n', 'u', 'l', 'l']
  | .jbool true => ['t', 'r', 'u', 'e']
  | .jbool false => ['f', 'a', 'l', 's', 'e']
  | .jnum n => intToChars n
  | .jstr s => serString s
  | .jarr .nil => ['[', ']']
  | .jarr (.cons x xs) =>
    '[' :: (indentChars w (d + 1) ++ serValue w (d + 1) x ++
      serItemsTail w (d + 1) xs ++ indentChars w d ++ [']'])
  | .jobj .nil => ['\x7b', '\x7d']
  | .jobj (.cons k v fs) =>
    '\x7b' :: (indentChars w (d + 1) ++
      (serString k ++ (':' :: colonGap w) ++ serValue w (d + 1) v) ++
      serFieldsTail w (d + 1) fs ++ indentChars w d ++ ['\x7d'])
termination_by structural v => v

/-- The second and later array elements, each preceded by a comma and
the indentation of depth `d`. -/
def serItemsTail (w d : Nat) : JList → List Char
  | .nil => []
  | .cons x xs => ',' :: (indentChars w d ++ serValue w d x ++ serItemsTail w d xs)
termination_by structural xs => xs

/-- The second and later object fields, each preceded by a comma and the
indentation of depth `d`; each field is quoted key, colon, gap, value. -/
def serFieldsTail (w d : Nat) : JFields → List Char
  | .nil => []
  | .cons k v fs =>
    ',' :: (indentChars w d ++
      (serString k ++ (':' :: colonGap w) ++ serValue w d v) ++
      serFieldsTail w d fs)
termination_by structural fs => fs

end

/-- One object field: quoted key, colon, gap, value. -/
def serField (w d : Nat) (k : String) (v : JValue) : List Char :=
  serString k ++ (':' :: colonGap w) ++ serValue w d v

/-- Model of `JSON.stringify(v, null, w)` as a string. -/
def stringifyJson (w : Nat) (v : JValue) : String :=
  String.mk (serValue w 0 v)

/-! ## JSON parsing: model of `JSON.parse` -/

/-- JSON insignificant whitespace: space, newline, tab, carriage
return (by character code). -/
def isJsonWs (c : Char) : Bool :=
  c.toNat = 32 || c.toNat = 10 || c.toNat = 9 || c.toNat = 13

/-- Drop leading JSON whitespace. -/
def skipWs (cs : List Char) : List Char :=
  cs.dropWhile isJsonWs

/-- Unescape the character following a backslash inside a JSON string. -/
def unescChar (c : Char) : Option Char :=
  if c = '"' then some '"'
  else if c = '\\' then some '\\'
  else if c = '/' then some '/'
  else if c = 'n' then some '\n'
  else if c = 't' then some '\t'
  else if c = 'r' then some '\r'
  else none

/-- Parse the body of a JSON string after the opening quote, returning
the contents and the rest of the input after the closing quote. -/
def parseStringBody : List Char → Option (List Char × List Char)
  | [] => none
  | c :: rest =>
    if c = '"' then some ([], rest)
    else if c = '\\' then
      match rest with
      | [] => none
      | e :: rest' =>
        match unescChar e, parseStringBody rest' with
        | some u, some (s, r) => some (u :: s, r)
        | _, _ => none
    else
      match parseStringBody rest with
      | some (s, r) => some (c :: s, r)
      | none => none
termination_by structural cs => cs

/-- Does the input start with the given character? -/
def headIs (c : Char) (cs : List Char) : Bool :=
  match cs with
  | [] => false
  | x :: _ => x == c

/-- Does the input start with the given character list? -/
def startsL (pat cs : List Char) : Bool :=
  List.isPrefixOf pat cs

/-- Does the input avoid starting with a decimal digit?  (A JSON number
token is delimited only by the following non-digit character.) -/
def noDigitHead : List Char → Bool
  | [] => true
  | c :: _ => !(isDigitCh c)

/-- Lex a JSON integer token (optional minus sign, then digits) from the
head of the input. -/
def numTok : List Char → Option (Int × List Char)
  | [] => none
  | c :: rest =>
    if c = '-' then
      match rest with
      | [] => none
      | c2 :: _ =>
        if isDigitCh c2 then
          some (-(Int.ofNat (digitsVal (rest.takeWhile isDigitCh))),
            rest.dropWhile isDigitCh)
        else none
    else if isDigitCh c then
      some (Int.ofNat (digitsVal ((c :: rest).takeWhile isDigitCh)),
        (c :: rest).dropWhile isDigitCh)
    else none

mutual

/-- Fuel-bounded recursive-descent JSON value parser: returns the parsed
value and the unconsumed rest of the input. -/
def parseValue : Nat → List Char → Option (JValue × List Char)
  | 0, _ => none
  | fuel + 1, cs =>
    match numTok (skipWs cs) with
    | some (n, r) => some (.jnum n, r)
    | none =>
      match skipWs cs with
      | [] => none
      | c :: rest =>
        if c = 'n' then
          if startsL ['u', 'l', 'l'] rest then some (.jnull, rest.drop 3) else none
        else if c = 't' then
          if startsL ['r', 'u', 'e'] rest then some (.jbool true, rest.drop 3) else none
        else if c = 'f' then
          if startsL ['a', 'l', 's', 'e'] rest then some (.jbool false, rest.drop 4)
          else none
        else if c = '"' then
          match parseStringBody rest with
          | some (s, r) => some (.jstr (String.mk s), r)
          | none => none
        else if c = '[' then
          if headIs ']' (skipWs rest) then some (.jarr .nil, (skipWs rest).drop 1)
          else
            match parseItems fuel rest with
            | some (vs, r) => some (.jarr vs, r)
            | none => none
        else if c = '\x7b' then
          if headIs '\x7d' (skipWs rest) then some (.jobj .nil, (skipWs rest).drop 1)
          else
            match parseFields fuel rest with
            | some (fs, r) => some (.jobj fs, r)
            | none => none
        else none

/-- Parse one or more comma-separated array elements up to the closing
bracket. -/
def parseItems : Nat → List Char → Option (JList × List Char)
  | 0, _ => none
  | fuel + 1, cs =>
    match parseValue fuel cs with
    | none => none
    | some (v, rest) =>
      if headIs ']' (skipWs rest) then some (.cons v .nil, (skipWs rest).drop 1)
      else if headIs ',' (skipWs rest) then
        match parseItems fuel ((skipWs rest).drop 1) with
        | some (vs, r') => some (.cons v vs, r')
        | none => none
      else none

/-- Parse one or more comma-separated object fields up to the closing
brace. -/
def parseFields : Nat → List Char → Option (JFields × List Char)
  | 0, _ => none
  | fuel + 1, cs =>
    match skipWs cs with
    | [] => none
    | c :: rest =>
      if c = '"' then
        match parseStringBody rest with
        | none => none
        | some (k, rest1) =>
          if headIs ':' (skipWs rest1) then
            match parseValue fuel ((skipWs rest1).drop 1) with
            | none => none
            | some (v, rest3) =>
              if headIs '\x7d' (skipWs rest3) then
                some (.cons (String.mk k) v .nil, (skipWs rest3).drop 1)
              else if headIs ',' (skipWs rest3) then
                match parseFields fuel ((skipWs rest3).drop 1) with
                | some (fs, r') => some (.cons (String.mk k) v fs, r')
                | none => none
              else none
          else none
      else none

end

/-- Model of `JSON.parse`: the whole input (with surrounding whitespace)
must be a single JSON value, otherwise the parse fails. -/
def parseJson (s : String) : Option JValue :=
  match parseValue (s.data.length + 1) s.data with
  | some (v, rest) => if skipWs rest = [] then some v else none
  | none => none


/-! ## List-based string primitives (JS `toUpperCase`, `trim`, `split`) -/

/-- Model of `String.prototype.toUpperCase` on our character set: every
character uppercased individually. -/
def jsToUpper (s : String) : String := String.mk (s.data.map Char.toUpper)

/-- Model of `String.prototype.toLowerCase` on our character set: every
character lowercased individually. -/
def jsToLower (s : String) : String := String.mk (s.data.map Char.toLower)

/-- The whitespace removed by JS string trimming (the ASCII part:
space, tab, newline, vertical tab, form feed, carriage return). -/
def isTrimWs (c : Char) : Bool := c.toNat = 32 || (9 ≤ c.toNat && c.toNat ≤ 13)

/-- Model of JS string trimming: whitespace removed from both ends. -/
def jsTrim (s : String) : String :=
  String.mk (((s.data.dropWhile isTrimWs).reverse.dropWhile isTrimWs).reverse)

/-- JS string splitting with a one-character separator, over the
character list; the empty string yields one empty group. -/
def splitCh (sep : Char) : List Char → List (List Char)
  | [] => [[]]
  | c :: rest =>
    if c = sep then [] :: splitCh sep rest
    else
      match splitCh sep rest with
      | [] => [[c]]
      | g :: gs => (c :: g) :: gs

/-- Model of JS string splitting with a one-character separator. -/
def jsSplit (sep : Char) (s : String) : List String :=
  (splitCh sep s.data).map String.mk

/-! ## Built-in Function Library (`applyBuiltInFunction` in run.ts) -/

/-- Characters matched by the JS regex class `\s` (the common ones, by
character code): space, tab, newline, carriage return, vertical tab,
form feed. -/
def isJsWs (c : Char) : Bool :=
  c.toNat = 32 || c.toNat = 9 || c.toNat = 10 || c.toNat = 13 ||
    c.toNat = 11 || c.toNat = 12

/-- Try to match the placeholder pattern of the `template` built-in —
two opening braces, optional whitespace, the key, optional whitespace,
two closing braces — at the head of `cs`, returning the input after the
match. -/
def matchKeyAt (key : List Char) (cs : List Char) : Option (List Char) :=
  match cs with
  | '\x7b' :: '\x7b' :: rest =>
    let r1 := rest.dropWhile isJsWs
    if key.isPrefixOf r1 then
      match (r1.drop key.length).dropWhile isJsWs with
      | '\x7d' :: '\x7d' :: r3 => some r3
      | _ => none
    else none
  | _ => none

/-- Global, left-to-right, non-overlapping replacement of the
placeholder pattern for `key` by `repl`, as the JS
`String.prototype.replace` with a global regex does (`fuel`-bounded;
the input's length is enough fuel since every iteration consumes at
least one character). -/
def replaceCore (key repl : List Char) : Nat → List Char → List Char
  | 0, cs => cs
  | _ + 1, [] => []
  | fuel + 1, c :: cs =>
    match matchKeyAt key (c :: cs) with
    | some rest => repl ++ replaceCore key repl fuel rest
    | none => c :: replaceCore key repl fuel cs

/-- Replace every occurrence of the `key` placeholder in `s` by `repl`. -/
def replaceTemplate (key repl s : String) : String :=
  String.mk (replaceCore key.data repl.data s.data.length s.data)

/-- The element-wise operation of the array and object branches of
`toUpperCase`/`toLowerCase`: a string is folded with `f`, any non-string
value passes through unchanged. -/
def elemFold (f : String → String) : JValue → JValue
  | .jstr s => .jstr (f s)
  | other => other

/-- The case folding of `toUpperCase`/`toLowerCase`: strings folded
directly, arrays and objects element-wise (string elements and
string-valued properties only), everything else unchanged. -/
def caseFoldValue (f : String → String) : JValue → JValue
  | .jstr s => .jstr (f s)
  | .jarr items => .jarr (items.mapTop (elemFold f))
  | .jobj fields => .jobj (fields.mapVals (elemFold f))
  | other => other

/-- Model of `applyBuiltInFunction` from run.ts: `toUpperCase`,
`toLowerCase`, `template`, otherwise the `Unknown built-in function`
error. -/
def applyBuiltInFunction (content : JValue) (functionName : String)
    (options : List (String × JValue)) : Except String JValue :=
  if functionName = "toUpperCase" then .ok (caseFoldValue jsToUpper content)
  else if functionName = "toLowerCase" then .ok (caseFoldValue jsToLower content)
  else if functionName = "template" then
    .ok (match content with
      | .jstr s =>
        .jstr (options.foldl (fun acc kv => replaceTemplate kv.1 (jsString kv.2) acc) s)
      | other => other)
  else .error ("Unknown built-in function: " ++ functionName)

/-! ## Content Codec (`parseFileContent` / `writeOutputFile` in run.ts) -/

/-- The CSV parsing of `parseFileContent` in run.ts: split on newline,
drop blank lines, first remaining line is the header row split on
commas and trimmed, each later row maps positionally to the headers with
trimmed values and empty strings for missing trailing fields. -/
def csvRowFields (headers : List String) (values : List String) : JFields :=
  JFields.ofList (headers.enum.map (fun p =>
    (p.2, JValue.jstr
      (match values.get? p.1 with
       | some v => jsTrim v
       | none => ""))))

/-- The non-header lines of the CSV content: split on newline with
blank lines discarded, then all but the first. -/
def csvDataLines (content : String) : List String :=
  ((jsSplit '\n' content).filter (fun l => !(jsTrim l == ""))).drop 1

/-- See `csvParseContent`. -/
def csvHeaders (content : String) : List String :=
  match (jsSplit '\n' content).filter (fun l => !(jsTrim l == "")) with
  | [] => []
  | header :: _ => (jsSplit ',' header).map (fun h => jsTrim h)

def csvParseContent (content : String) : JValue :=
  let lines := (jsSplit '\n' content).filter (fun l => !(jsTrim l == ""))
  match lines with
  | [] => .jarr .nil
  | header :: rest =>
    let headers := (jsSplit ',' header).map (fun h => jsTrim h)
    .jarr (JList.ofList (rest.map (fun line =>
      .jobj (csvRowFields headers (jsSplit ',' line)))))

/-- Model of `parseFileContent` from src/src/commands/run.ts: `.json`
is parsed strictly, but a parse failure is caught and the raw text
returned instead (the function's own `Fallback to raw content` branch);
`.csv` uses the CSV parsing; anything else is raw text. -/
def parseFileContent_run (raw : String) (ext : String) : JValue :=
  if ext = ".json" then
    match parseJson raw with
    | some v => v
    | none => .jstr raw
  else if ext = ".csv" then csvParseContent raw
  else .jstr raw

/-- Model of `writeOutputFile` from src/src/commands/run.ts: objects and
arrays are written as indented JSON (with the trailing newline
`fs.writeJsonSync` appends), everything else as its JS string
conversion. -/
def writeOutputFile_run (content : JValue) (jsonIndent : Nat) : String :=
  match content with
  | .jarr xs => stringifyJson jsonIndent (.jarr xs) ++ "\n"
  | .jobj fs => stringifyJson jsonIndent (.jobj fs) ++ "\n"
  | v => jsString v

/-! ## Workflow Runner, variant of src/src/commands/run.ts -/

/-- The semantics of executing one user transform script (the Script
Sandbox), abstracted as a function from script path, content and
options to a result or an error. -/
def TransformFn : Type :=
  String → JValue → List (String × JValue) → Except String JValue

/-- A workflow step as configured in workflow.json.  The `type` is kept
as the raw configuration string because the source dispatches on it with
a default error branch. -/
structure WStep where
  name : String
  type : String
  function : String
  options : List (String × JValue)
  skip_existing : Bool

/-- Dispatch of `runWorkflowStep` (run.ts) on the step type: transform
via the sandbox, built-in via the function library, filter passes the
content through unchanged, anything else is the `Unsupported step type`
error. -/
def stepExec (tf : TransformFn) (step : WStep) (content : JValue) :
    Except String JValue :=
  if step.type = "transform" then tf step.function content step.options
  else if step.type = "built-in" then
    applyBuiltInFunction content step.function step.options
  else if step.type = "filter" then .ok content
  else .error ("Unsupported step type: " ++ step.type)

/-- The output directory's contents: an association list from file name
to file content. -/
def FileSys : Type := List (String × String)

/-- Look up a file's content by name. -/
def fsLookup (fs : FileSys) (k : String) : Option String :=
  List.lookup k fs

/-- Write (create or overwrite) a file. -/
def fsWrite (fs : FileSys) (k v : String) : FileSys :=
  (k, v) :: fs.filter (fun p => !(p.1 == k))

/-- One input file: base name, extension (with the leading dot, already
lowercased as `path.extname(...).toLowerCase()` produces it) and raw
content. -/
structure InFile where
  base : String
  ext : String
  raw : String

/-- The input file's name, which run.ts also uses as the output file
name (`path.basename(filePath)`). -/
def InFile.fileName (f : InFile) : String := f.base ++ f.ext

/-- Model of `runWorkflowStep` from src/src/commands/run.ts (with no
custom config): skip when the step has `skip_existing` and the output
file exists, otherwise parse the input file, execute the step, and
write the result to the output file. -/
def runWorkflowStep_v1 (tf : TransformFn) (file : InFile) (step : WStep)
    (jsonIndent : Nat) (outFiles : FileSys) : Except String FileSys :=
  if step.skip_existing && (fsLookup outFiles file.fileName).isSome then
    .ok outFiles
  else
    let content := parseFileContent_run file.raw file.ext
    match stepExec tf step content with
    | .error e => .error e
    | .ok result =>
      .ok (fsWrite outFiles file.fileName (writeOutputFile_run result jsonIndent))

/-- The inner loop of `runWorkflow` (run.ts) over one file's steps; a
step error aborts, keeping what was already written. -/
def runFileSteps_v1 (tf : TransformFn) (steps : List WStep) (file : InFile)
    (jsonIndent : Nat) (outFiles : FileSys) : FileSys × Option String :=
  match steps with
  | [] => (outFiles, none)
  | step :: rest =>
    match runWorkflowStep_v1 tf file step jsonIndent outFiles with
    | .error e => (outFiles, some e)
    | .ok fs' => runFileSteps_v1 tf rest file jsonIndent fs'

/-- The `force` preprocessing of `runWorkflow` (run.ts): with `force`
every step's `skip_existing` is turned off before the loop. -/
def forceSteps (force : Bool) (steps : List WStep) : List WStep :=
  if force then steps.map (fun s => { s with skip_existing := false }) else steps

/-- The outer loop of `runWorkflow` (run.ts) over the input files: a
per-file error always aborts the run (the error propagates to the
caller; there is no per-file recovery in this variant). -/
def runFiles_v1 (tf : TransformFn) (steps : List WStep) (files : List InFile)
    (jsonIndent : Nat) (outFiles : FileSys) : FileSys × Option String :=
  match files with
  | [] => (outFiles, none)
  | f :: rest =>
    match runFileSteps_v1 tf steps f jsonIndent outFiles with
    | (fs', none) => runFiles_v1 tf steps rest jsonIndent fs'
    | (fs', some e) => (fs', some e)

/-- Model of `runWorkflow` from src/src/commands/run.ts (configuration
already loaded, no custom config): apply the `force` preprocessing to
the steps, then process every input file through every step. -/
def runWorkflow_v1 (tf : TransformFn) (force : Bool) (steps : List WStep)
    (files : List InFile) (jsonIndent : Nat) (outFiles : FileSys) :
    FileSys × Option String :=
  runFiles_v1 tf (forceSteps force steps) files jsonIndent outFiles

/-! ## Workflow Runner, child-process variant (src/unnamed/part_004,
second `runWorkflow`) -/

/-- The CSV parsing of the child-process variant's `parseFileContent`:
like run.ts's but all row values are trimmed up front. -/
def csvParseContent_v2 (content : String) : JValue :=
  let lines := (jsSplit '\n' content).filter (fun l => !(jsTrim l == ""))
  match lines with
  | [] => .jarr .nil
  | header :: rest =>
    let headers := (jsSplit ',' header).map (fun h => jsTrim h)
    .jarr (JList.ofList (rest.map (fun line =>
      let values := (jsSplit ',' line).map (fun v => jsTrim v)
      .jobj (JFields.ofList (headers.enum.map (fun p =>
        (p.2, JValue.jstr
          (match values.get? p.1 with
           | some v => v
           | none => ""))))))))

/-- Model of the child-process variant's `parseFileContent`: extensions
come without the dot, and a JSON parse failure is rethrown (no raw-text
fallback in this variant). -/
def parseFileContent_v2 (raw : String) (ext : String) : Except String JValue :=
  if ext = "json" then
    match parseJson raw with
    | some v => .ok v
    | none => .error "Failed to parse file"
  else if ext = "csv" then .ok (csvParseContent_v2 raw)
  else .ok (.jstr raw)

/-- Step dispatch of the child-process variant's `runWorkflowStep`:
only `built-in` and `transform` are supported (no `filter` branch in
this variant). -/
def stepExec_v2 (tf : TransformFn) (step : WStep) (content : JValue) :
    Except String JValue :=
  if step.type = "built-in" then
    applyBuiltInFunction content step.function step.options
  else if step.type = "transform" then tf step.function content step.options
  else .error ("Unsupported step type: " ++ step.type)

/-- The child-process variant's `writeOutputFile` with no custom
formatter: always pretty JSON with two-space indent. -/
def writeOutputFile_v2 (content : JValue) : String :=
  stringifyJson 2 content

/-- The child-process variant's output file name: the input's base name
with the extension forced to `.json`. -/
def outName_v2 (f : InFile) : String := f.base ++ ".json"

/-- Model of the child-process variant's `runWorkflowStep`: parse the
input file (extension without the dot), execute the step, write the
result to `<base>.json`. -/
def runWorkflowStep_v2 (tf : TransformFn) (file : InFile) (step : WStep)
    (outFiles : FileSys) : Except String FileSys :=
  match parseFileContent_v2 file.raw (String.mk (file.ext.data.drop 1)) with
  | .error e => .error e
  | .ok content =>
    match stepExec_v2 tf step content with
    | .error e => .error e
    | .ok result =>
      .ok (fsWrite outFiles (outName_v2 file) (writeOutputFile_v2 result))

/-- The child-process variant's loop over one file's steps; a step
error aborts the file, keeping what was already written. -/
def runFileSteps_v2 (tf : TransformFn) (steps : List WStep) (file : InFile)
    (outFiles : FileSys) : FileSys × Option String :=
  match steps with
  | [] => (outFiles, none)
  | step :: rest =>
    match runWorkflowStep_v2 tf file step outFiles with
    | .error e => (outFiles, some e)
    | .ok fs' => runFileSteps_v2 tf rest file fs'

/-- Model of the child-process variant's `runWorkflow` loop over input
files: a file whose `.json` output exists is skipped unless `force`; a
per-file error is caught, and the run continues with the next file when
`force` is set, otherwise it aborts and the error propagates. -/
def runFiles_v2 (tf : TransformFn) (force : Bool) (steps : List WStep)
    (files : List InFile) (outFiles : FileSys) : FileSys × Option String :=
  match files with
  | [] => (outFiles, none)
  | f :: rest =>
    if (fsLookup outFiles (outName_v2 f)).isSome && !force then
      runFiles_v2 tf force steps rest outFiles
    else
      match runFileSteps_v2 tf steps f outFiles with
      | (fs', none) => runFiles_v2 tf force steps rest fs'
      | (fs', some e) =>
        if force then runFiles_v2 tf force steps rest fs'
        else (fs', some e)

/-! ## Script Sandbox (`executeTransformScript` in src/unnamed/part_004) -/

/-- Error outcomes of the sandbox's close handler: the primary channel
was not valid JSON, or the script exited with a nonzero code (carrying
the accumulated non-log diagnostic text). -/
inductive ScriptError : Type where
  | resultParse : String → ScriptError
  | scriptExec : String → ScriptError

/-- Concatenation of the data chunks received on a stream. -/
def joinChunks (chunks : List String) : String :=
  chunks.foldl (fun a c => a ++ c) ""

/-- The stderr accumulation of `executeTransformScript`: chunks tagged
`LOG:` by the harness (redirected `console.log` calls of the user
script) are diverted to logging and kept out of the error detail. -/
def stderrKept (chunks : List String) : String :=
  joinChunks (chunks.filter (fun m => !(m.startsWith "LOG:")))

/-- What the child process produced by the time it closed: exit code
and the chunks received on the primary (stdout) and diagnostic (stderr)
channels. -/
structure ChildExit : Type where
  code : Int
  stdoutChunks : List String
  stderrChunks : List String

/-- Model of the `close` handler of `executeTransformScript`: exit code
0 parses the accumulated primary channel as JSON (failing with the
result-parse error when it is not valid JSON); a nonzero exit code
fails with the script-execution error carrying the kept diagnostic
text. -/
def closeTransformResult (e : ChildExit) : Except ScriptError JValue :=
  if e.code = 0 then
    match parseJson (joinChunks e.stdoutChunks) with
    | some v => .ok v
    | none => .error (.resultParse (joinChunks e.stdoutChunks))
  else .error (.scriptExec (stderrKept e.stderrChunks))

/-- What the harness writes to the primary channel when the user script
returns `r`: exactly one line, `JSON.stringify(r)` (compact, indent 0). -/
def harnessStdout (r : JValue) : String :=
  stringifyJson 0 r

/-! ## The specification's step chain -/

/-- Modelled from the spec: "Each step consumes the previous step's
output as its input; the chain is therefore a strict left-to-right fold
over `steps` with the parsed file as seed."  This definition follows the
spec's words (not the source) and exists to be compared with the
source-derived runner. -/
def specFoldSteps (tf : TransformFn) (steps : List WStep) (seed : JValue) :
    Except String JValue :=
  steps.foldl
    (fun acc step =>
      match acc with
      | .error e => .error e
      | .ok v => stepExec tf step v)
    (.ok seed)

/-! ## Auxiliary observers and fixtures used by the claim statements -/

/-- The number of elements of a `JList`. -/
def JList.length : JList → Nat
  | .nil => 0
  | .cons _ vs => JList.length vs + 1

/-- Positional access into a `JList`. -/
def JList.get? : JList → Nat → Option JValue
  | .nil, _ => none
  | .cons v _, 0 => some v
  | .cons _ vs, n + 1 => JList.get? vs n

/-- The field names of an object, in order. -/
def JFields.keys : JFields → List String
  | .nil => []
  | .cons k _ fs => k :: JFields.keys fs

/-- Positional access into an object's fields. -/
def JFields.get? : JFields → Nat → Option (String × JValue)
  | .nil, _ => none
  | .cons k v _, 0 => some (k, v)
  | .cons _ _ fs, n + 1 => JFields.get? fs n

/-- Is the value a JSON string? -/
def isStrValue : JValue → Bool
  | .jstr _ => true
  | _ => false

/-- Bounded check that the placeholder pattern for `key` occurs nowhere
in `cs` (every suffix fails to match; suffixes beyond the length are
empty and never match). -/
def noKeyOccur (key cs : List Char) : Bool :=
  (List.range (cs.length + 1)).all (fun n => (matchKeyAt key (cs.drop n)).isNone)

mutual

/-- Parser fuel needed for a value (used to relate the serializer and
the fuel-bounded parser). -/
def weight : JValue → Nat
  | .jnull => 1
  | .jbool _ => 1
  | .jnum _ => 1
  | .jstr _ => 1
  | .jarr xs => wList xs + 1
  | .jobj fs => wFields fs + 1
termination_by structural v => v

/-- Parser fuel needed for the elements of an array. -/
def wList : JList → Nat
  | .nil => 0
  | .cons x xs => weight x + wList xs + 1
termination_by structural l => l

/-- Parser fuel needed for the fields of an object. -/
def wFields : JFields → Nat
  | .nil => 0
  | .cons _ v fs => weight v + wFields fs + 1
termination_by structural l => l

end

/-- A sandbox semantics for runs that use no transform step: every
script invocation fails. -/
def tfUnused : TransformFn := fun p _ _ => .error ("script not available: " ++ p)

/-- A built-in `template` step with option `name = "World"`. -/
def templateStep : WStep :=
  ⟨"apply-template", "built-in", "template", [("name", .jstr "World")], false⟩

/-- A built-in `toUpperCase` step. -/
def upperStep : WStep := ⟨"uppercase", "built-in", "toUpperCase", [], false⟩

/-- A `filter` step (its `function` field is arbitrary). -/
def filterStep : WStep := ⟨"keep", "filter", "unused", [], false⟩

/-- A `filter` step with `skip_existing` set. -/
def skipFilterStep : WStep := ⟨"keep-skip", "filter", "unused", [], true⟩

/-- A built-in step whose function name is not registered. -/
def badStep : WStep := ⟨"broken", "built-in", "nope", [], false⟩

/-- A text input file containing a template placeholder. -/
def greetFile : InFile := ⟨"greeting", ".txt", "Hello \x7b\x7b name \x7d\x7d"⟩

/-! # Proof development -/

/-! ## Character and whitespace basics -/

theorem stringMk_data (s : String) : String.mk s.data = s := rfl

theorem skipWs_cons_ws (c : Char) (cs : List Char) (h : isJsonWs c = true) :
    skipWs (c :: cs) = skipWs cs := by
  simp [skipWs, List.dropWhile, h]

theorem skipWs_cons_not_ws (c : Char) (cs : List Char) (h : isJsonWs c = false) :
    skipWs (c :: cs) = c :: cs := by
  simp [skipWs, List.dropWhile, h]

theorem skipWs_append_ws (ws cs : List Char) (h : ∀ c ∈ ws, isJsonWs c = true) :
    skipWs (ws ++ cs) = skipWs cs := by
  induction ws with
  | nil => rfl
  | cons c t ih =>
    rw [List.cons_append, skipWs_cons_ws c _ (h c (by simp))]
    exact ih (fun x hx => h x (by simp [hx]))

theorem skipWs_all_ws (ws : List Char) (h : ∀ c ∈ ws, isJsonWs c = true) :
    skipWs ws = [] := by
  have h2 := skipWs_append_ws ws [] h
  simpa using h2

theorem indentChars_ws (w d : Nat) : ∀ c ∈ indentChars w d, isJsonWs c = true := by
  intro c hc
  unfold indentChars at hc
  split at hc
  · simp at hc
  · rcases List.mem_cons.mp hc with rfl | hrep
    · decide
    · rw [List.eq_of_mem_replicate hrep]; decide

theorem skipWs_indent (w d : Nat) (cs : List Char) :
    skipWs (indentChars w d ++ cs) = skipWs cs :=
  skipWs_append_ws _ _ (indentChars_ws w d)

theorem colonGap_ws (w : Nat) : ∀ c ∈ colonGap w, isJsonWs c = true := by
  intro c hc
  unfold colonGap at hc
  split at hc
  · simp at hc
  · simp at hc; rw [hc]; decide

/-! ## Digit characters -/

theorem isDigitCh_iff (c : Char) : isDigitCh c = true ↔ 48 ≤ c.toNat ∧ c.toNat ≤ 57 := by
  simp [isDigitCh]

theorem isJsonWs_iff (c : Char) :
    isJsonWs c = true ↔ c.toNat = 32 ∨ c.toNat = 10 ∨ c.toNat = 9 ∨ c.toNat = 13 := by
  simp [isJsonWs, Bool.or_eq_true]
  tauto

theorem digit_not_ws {c : Char} (h : isDigitCh c = true) : isJsonWs c = false := by
  rw [isDigitCh_iff] at h
  cases hb : isJsonWs c with
  | false => rfl
  | true => rw [isJsonWs_iff] at hb; omega

theorem ws_not_digit {c : Char} (h : isJsonWs c = true) : isDigitCh c = false := by
  rw [isJsonWs_iff] at h
  cases hb : isDigitCh c with
  | false => rfl
  | true => rw [isDigitCh_iff] at hb; omega

theorem digit_ne {c : Char} (h : isDigitCh c = true) :
    c ≠ '-' ∧ c ≠ ']' ∧ c ≠ '\x7d' ∧ c ≠ ',' ∧ c ≠ ':' ∧ c ≠ '"' := by
  rw [isDigitCh_iff] at h
  refine ⟨?_, ?_, ?_, ?_, ?_, ?_⟩ <;> (rintro rfl; revert h; decide)

theorem digitChar_isDigit {k : Nat} (h : k < 10) : isDigitCh (digitChar k) = true := by
  interval_cases k <;> decide

theorem digitChar_val {k : Nat} (h : k < 10) : (digitChar k).toNat - 48 = k := by
  interval_cases k <;> decide

/-! ## Decimal numeral correctness -/

theorem digitsVal_append_one (xs : List Char) (c : Char) :
    digitsVal (xs ++ [c]) = digitsVal xs * 10 + (c.toNat - 48) := by
  simp [digitsVal, List.foldl_append]

theorem natDigitsAux_spec : ∀ fuel n, n < fuel →
    natDigitsAux fuel n ≠ [] ∧ (∀ c ∈ natDigitsAux fuel n, isDigitCh c = true) ∧
      digitsVal (natDigitsAux fuel n) = n := by
  intro fuel
  induction fuel with
  | zero => intro n h; omega
  | succ f ih =>
    intro n h
    by_cases h10 : n < 10
    · refine ⟨by simp [natDigitsAux, h10], ?_, ?_⟩
      · intro c hc
        simp [natDigitsAux, h10] at hc
        rw [hc]; exact digitChar_isDigit h10
      · simp [natDigitsAux, h10, digitsVal]
        exact digitChar_val h10
    · have hdivlt : n / 10 < n := Nat.div_lt_self (by omega) (by norm_num)
      have hdiv : n / 10 < f := by omega
      obtain ⟨hne, hall, hval⟩ := ih (n / 10) hdiv
      refine ⟨by simp [natDigitsAux, h10], ?_, ?_⟩
      · intro c hc
        simp only [natDigitsAux, h10, if_false, List.mem_append, List.mem_singleton] at hc
        rcases hc with hc | rfl
        · exact hall c hc
        · exact digitChar_isDigit (Nat.mod_lt n (by norm_num))
      · simp only [natDigitsAux, h10, if_false]
        rw [digitsVal_append_one, hval, digitChar_val (Nat.mod_lt n (by norm_num))]
        omega

theorem natToChars_spec (n : Nat) :
    natToChars n ≠ [] ∧ (∀ c ∈ natToChars n, isDigitCh c = true) ∧
      digitsVal (natToChars n) = n :=
  natDigitsAux_spec (n + 1) n (Nat.lt_succ_self n)

/-! ## takeWhile / dropWhile across a boundary -/

theorem takeWhile_all_append {p : Char → Bool} : ∀ (xs ys : List Char),
    (∀ c ∈ xs, p c = true) → (∀ c, ys.head? = some c → p c = false) →
    (xs ++ ys).takeWhile p = xs ∧ (xs ++ ys).dropWhile p = ys := by
  intro xs
  induction xs with
  | nil =>
    intro ys _ hy
    cases ys with
    | nil => simp
    | cons c t =>
      have := hy c rfl
      simp [List.takeWhile, List.dropWhile, this]
  | cons x xt ih =>
    intro ys hx hy
    have hpx : p x = true := hx x (by simp)
    have := ih ys (fun c hc => hx c (by simp [hc])) hy
    simp [List.takeWhile, List.dropWhile, hpx, this.1, this.2]

/-! ## Number-token correctness -/

theorem noDigitHead_head? (rest : List Char) (h : noDigitHead rest = true) :
    ∀ c, rest.head? = some c → isDigitCh c = false := by
  intro c hc
  cases rest with
  | nil => simp at hc
  | cons x t =>
    simp at hc
    subst hc
    simpa [noDigitHead] using h

theorem numTok_nat (m : Nat) (rest : List Char) (hrest : noDigitHead rest = true) :
    numTok (natToChars m ++ rest) = some (Int.ofNat m, rest) := by
  obtain ⟨hne, hall, hval⟩ := natToChars_spec m
  obtain ⟨c, cs, hcons⟩ : ∃ c cs, natToChars m = c :: cs := by
    cases h : natToChars m with
    | nil => exact absurd h hne
    | cons c cs => exact ⟨c, cs, rfl⟩
  have hc : isDigitCh c = true := hall c (by rw [hcons]; simp)
  have htw := takeWhile_all_append (natToChars m) rest hall (noDigitHead_head? rest hrest)
  rw [hcons] at htw ⊢
  rw [List.cons_append]
  simp only [numTok]
  rw [if_neg (digit_ne hc).1, if_pos hc]
  rw [← List.cons_append, htw.1, htw.2, ← hcons, hval]

theorem numTok_int (n : Int) (rest : List Char) (hrest : noDigitHead rest = true) :
    numTok (intToChars n ++ rest) = some (n, rest) := by
  cases n with
  | ofNat m =>
    have : intToChars (Int.ofNat m) = natToChars m := by
      simp [intToChars]
    rw [this, numTok_nat m rest hrest]
  | negSucc m =>
    have heq : intToChars (Int.negSucc m) = '-' :: natToChars (m + 1) := by
      unfold intToChars
      rw [if_pos (Int.negSucc_lt_zero m)]
      rfl
    rw [heq]
    obtain ⟨hne, hall, hval⟩ := natToChars_spec (m + 1)
    obtain ⟨c, cs, hcons⟩ : ∃ c cs, natToChars (m + 1) = c :: cs := by
      cases h : natToChars (m + 1) with
      | nil => exact absurd h hne
      | cons c cs => exact ⟨c, cs, rfl⟩
    have hc : isDigitCh c = true := hall c (by rw [hcons]; simp)
    have htw := takeWhile_all_append (natToChars (m + 1)) rest hall
      (noDigitHead_head? rest hrest)
    rw [List.cons_append, hcons, List.cons_append]
    simp only [numTok, if_pos hc]
    rw [← List.cons_append, ← hcons, htw.1, htw.2, hval]
    rfl

/-! ## JSON string body round trip -/

theorem parseStringBody_esc : ∀ (cs rest : List Char),
    parseStringBody (escChars cs ++ ('"' :: rest)) = some (cs, rest) := by
  intro cs
  induction cs with
  | nil =>
    intro rest
    show parseStringBody ('"' :: rest) = some ([], rest)
    rw [parseStringBody.eq_def]
    rfl
  | cons c t ih =>
    intro rest
    show parseStringBody ((escChar c ++ escChars t) ++ ('"' :: rest)) = _
    rw [List.append_assoc]
    by_cases h1 : c = '"'
    · subst h1; simp [escChar, parseStringBody, unescChar, ih]
    · by_cases h2 : c = '\\'
      · subst h2; simp [escChar, parseStringBody, unescChar, ih]
      · by_cases h3 : c = '\n'
        · subst h3; simp [escChar, parseStringBody, unescChar, ih]
        · by_cases h4 : c = '\t'
          · subst h4; simp [escChar, parseStringBody, unescChar, ih]
          · by_cases h5 : c = '\r'
            · subst h5; simp [escChar, parseStringBody, unescChar, ih]
            · rw [show escChar c = [c] by
                simp only [escChar, if_neg h1, if_neg h2, if_neg h3, if_neg h4, if_neg h5]]
              simp only [List.singleton_append]
              rw [parseStringBody.eq_def]
              simp only [if_neg h1, if_neg h2, ih]

/-! ## Heads of serialized values -/

theorem natToChars_cons (m : Nat) :
    ∃ c cs, natToChars m = c :: cs ∧ isDigitCh c = true := by
  obtain ⟨hne, hall, _⟩ := natToChars_spec m
  cases h : natToChars m with
  | nil => exact absurd h hne
  | cons c cs =>
    exact ⟨c, cs, rfl, hall c (by rw [h]; simp)⟩

theorem serValue_head (w d : Nat) (v : JValue) :
    ∃ c cs, serValue w d v = c :: cs ∧ isJsonWs c = false ∧ c ≠ ']' ∧ c ≠ '\x7d' := by
  cases v with
  | jnull => exact ⟨'n', _, rfl, by decide, by decide, by decide⟩
  | jbool b =>
    cases b with
    | false => exact ⟨'f', _, rfl, by decide, by decide, by decide⟩
    | true => exact ⟨'t', _, rfl, by decide, by decide, by decide⟩
  | jnum n =>
    cases n with
    | ofNat m =>
      have hser : serValue w d (.jnum (Int.ofNat m)) = natToChars m := by
        show intToChars (Int.ofNat m) = _
        unfold intToChars
        rw [if_neg (by exact not_lt.mpr (Int.ofNat_nonneg m))]
        rfl
      obtain ⟨c, cs, hcons, hc⟩ := natToChars_cons m
      exact ⟨c, cs, by rw [hser, hcons], digit_not_ws hc, (digit_ne hc).2.1,
        (digit_ne hc).2.2.1⟩
    | negSucc m =>
      have hser : serValue w d (.jnum (Int.negSucc m)) = '-' :: natToChars (m + 1) := by
        show intToChars (Int.negSucc m) = _
        unfold intToChars
        rw [if_pos (Int.negSucc_lt_zero m)]
        rfl
      exact ⟨'-', _, hser, by decide, by decide, by decide⟩
  | jstr s => exact ⟨'"', _, rfl, by decide, by decide, by decide⟩
  | jarr xs =>
    cases xs with
    | nil => exact ⟨'[', _, rfl, by decide, by decide, by decide⟩
    | cons x t => exact ⟨'[', _, rfl, by decide, by decide, by decide⟩
  | jobj fs =>
    cases fs with
    | nil => exact ⟨'\x7b', _, rfl, by decide, by decide, by decide⟩
    | cons k x t => exact ⟨'\x7b', _, rfl, by decide, by decide, by decide⟩

theorem skipWs_serValue (w d : Nat) (v : JValue) (zs : List Char) :
    skipWs (serValue w d v ++ zs) = serValue w d v ++ zs := by
  obtain ⟨c, cs, hcons, hws, _, _⟩ := serValue_head w d v
  rw [hcons, List.cons_append, skipWs_cons_not_ws c _ hws]

theorem headIs_serValue_close (b : Char) (hb : b = ']' ∨ b = '\x7d') (w d : Nat)
    (v : JValue) (zs : List Char) : headIs b (serValue w d v ++ zs) = false := by
  obtain ⟨c, cs, hcons, _, hcl, hbr⟩ := serValue_head w d v
  rw [hcons, List.cons_append]
  show (c == b) = false
  rcases hb with rfl | rfl
  · simp [hcl]
  · simp [hbr]

/-! ## noDigitHead helpers -/

theorem noDigitHead_cons (c : Char) (h : isDigitCh c = false) (cs : List Char) :
    noDigitHead (c :: cs) = true := by
  simp [noDigitHead, h]

theorem noDigitHead_indent_close (w dc : Nat) (c : Char) (hc : isDigitCh c = false)
    (rest : List Char) : noDigitHead (indentChars w dc ++ (c :: rest)) = true := by
  unfold indentChars
  split
  · simpa [noDigitHead] using hc
  · exact noDigitHead_cons '\n' (by decide) _

theorem noDigitHead_itemsTail (w d dc : Nat) (xs : JList) (c : Char)
    (hc : isDigitCh c = false) (rest : List Char) :
    noDigitHead (serItemsTail w d xs ++ indentChars w dc ++ (c :: rest)) = true := by
  cases xs with
  | nil =>
    show noDigitHead (indentChars w dc ++ (c :: rest)) = true
    exact noDigitHead_indent_close w dc c hc rest
  | cons y ys => exact noDigitHead_cons ',' (by decide) _

theorem noDigitHead_fieldsTail (w d dc : Nat) (fs : JFields) (c : Char)
    (hc : isDigitCh c = false) (rest : List Char) :
    noDigitHead (serFieldsTail w d fs ++ indentChars w dc ++ (c :: rest)) = true := by
  cases fs with
  | nil =>
    show noDigitHead (indentChars w dc ++ (c :: rest)) = true
    exact noDigitHead_indent_close w dc c hc rest
  | cons k v gs => exact noDigitHead_cons ',' (by decide) _

/-! ## The parser ignores leading whitespace -/

theorem parseValue_leading_ws (fuel : Nat) (ws cs : List Char)
    (h : ∀ c ∈ ws, isJsonWs c = true) :
    parseValue fuel (ws ++ cs) = parseValue fuel cs := by
  cases fuel with
  | zero => rfl
  | succ f =>
    simp only [parseValue]
    rw [skipWs_append_ws ws cs h]

theorem parseFields_leading_ws (fuel : Nat) (ws cs : List Char)
    (h : ∀ c ∈ ws, isJsonWs c = true) :
    parseFields fuel (ws ++ cs) = parseFields fuel cs := by
  cases fuel with
  | zero => rfl
  | succ f =>
    simp only [parseFields]
    rw [skipWs_append_ws ws cs h]

theorem weight_pos (v : JValue) : 1 ≤ weight v := by
  cases v <;> simp [weight]

/-! ## Parsing a serialized value: scalar and empty-container cases -/

theorem parseValue_succ_jnull (f w d : Nat) (rest : List Char) :
    parseValue (f + 1) (serValue w d .jnull ++ rest) = some (.jnull, rest) := by
  simp only [parseValue]
  rw [show serValue w d .jnull ++ rest = 'n' :: ('u' :: 'l' :: 'l' :: rest) from rfl]
  rw [skipWs_cons_not_ws _ _ (by decide)]
  simp [numTok, (show isDigitCh 'n' = false from by decide), startsL, List.isPrefixOf]

theorem parseValue_succ_jbool (f w d : Nat) (b : Bool) (rest : List Char) :
    parseValue (f + 1) (serValue w d (.jbool b) ++ rest) = some (.jbool b, rest) := by
  cases b with
  | false =>
    simp only [parseValue]
    rw [show serValue w d (.jbool false) ++ rest =
      'f' :: ('a' :: 'l' :: 's' :: 'e' :: rest) from rfl]
    rw [skipWs_cons_not_ws _ _ (by decide)]
    simp [numTok, (show isDigitCh 'f' = false from by decide), startsL, List.isPrefixOf]
  | true =>
    simp only [parseValue]
    rw [show serValue w d (.jbool true) ++ rest = 't' :: ('r' :: 'u' :: 'e' :: rest) from rfl]
    rw [skipWs_cons_not_ws _ _ (by decide)]
    simp [numTok, (show isDigitCh 't' = false from by decide), startsL, List.isPrefixOf]

theorem parseValue_succ_jnum (f w d : Nat) (n : Int) (rest : List Char)
    (hrest : noDigitHead rest = true) :
    parseValue (f + 1) (serValue w d (.jnum n) ++ rest) = some (.jnum n, rest) := by
  simp only [parseValue]
  rw [skipWs_serValue w d (.jnum n) rest]
  rw [show serValue w d (.jnum n) = intToChars n from rfl]
  rw [numTok_int n rest hrest]

theorem parseValue_succ_jstr (f w d : Nat) (s : String) (rest : List Char) :
    parseValue (f + 1) (serValue w d (.jstr s) ++ rest) = some (.jstr s, rest) := by
  simp only [parseValue]
  rw [show serValue w d (.jstr s) ++ rest = '"' :: (escChars s.data ++ ('"' :: rest)) from by
    show ('"' :: (escChars s.data ++ ['"'])) ++ rest = _
    simp]
  rw [skipWs_cons_not_ws '"' _ (by decide)]
  simp [numTok, (show isDigitCh '"' = false from by decide), parseStringBody_esc,
    stringMk_data]

theorem parseValue_succ_jarr_nil (f w d : Nat) (rest : List Char) :
    parseValue (f + 1) (serValue w d (.jarr .nil) ++ rest) = some (.jarr .nil, rest) := by
  simp only [parseValue]
  rw [show serValue w d (.jarr .nil) ++ rest = '[' :: (']' :: rest) from rfl]
  rw [skipWs_cons_not_ws _ _ (by decide)]
  have h1 : ∀ cs : List Char, skipWs (']' :: cs) = ']' :: cs :=
    fun cs => skipWs_cons_not_ws _ _ (by decide)
  simp [numTok, (show isDigitCh '[' = false from by decide), headIs, h1]

theorem parseValue_succ_jobj_nil (f w d : Nat) (rest : List Char) :
    parseValue (f + 1) (serValue w d (.jobj .nil) ++ rest) = some (.jobj .nil, rest) := by
  simp only [parseValue]
  rw [show serValue w d (.jobj .nil) ++ rest = '\x7b' :: ('\x7d' :: rest) from rfl]
  rw [skipWs_cons_not_ws _ _ (by decide)]
  have h1 : ∀ cs : List Char, skipWs ('\x7d' :: cs) = '\x7d' :: cs :=
    fun cs => skipWs_cons_not_ws _ _ (by decide)
  simp [numTok, (show isDigitCh '\x7b' = false from by decide), headIs, h1]


/-! ## Equation lemmas for the mutual structural definitions -/

theorem wList_cons (x : JValue) (xs : JList) :
    wList (.cons x xs) = weight x + wList xs + 1 := by
  rw [wList.eq_def]

theorem wFields_cons (k : String) (v : JValue) (fs : JFields) :
    wFields (.cons k v fs) = weight v + wFields fs + 1 := by
  rw [wFields.eq_def]

theorem weight_jarr (xs : JList) : weight (.jarr xs) = wList xs + 1 := by
  rw [weight.eq_def]

theorem weight_jobj (fs : JFields) : weight (.jobj fs) = wFields fs + 1 := by
  rw [weight.eq_def]

theorem serValue_jarr_cons (w d : Nat) (x : JValue) (xs : JList) :
    serValue w d (.jarr (.cons x xs)) =
    '[' :: (indentChars w (d + 1) ++ serValue w (d + 1) x ++
      serItemsTail w (d + 1) xs ++ indentChars w d ++ [']']) := by
  rw [serValue.eq_def]

theorem serValue_jobj_cons (w d : Nat) (k : String) (v : JValue) (fs : JFields) :
    serValue w d (.jobj (.cons k v fs)) =
    '\x7b' :: (indentChars w (d + 1) ++
      (serString k ++ (':' :: colonGap w) ++ serValue w (d + 1) v) ++
      serFieldsTail w (d + 1) fs ++ indentChars w d ++ ['\x7d']) := by
  rw [serValue.eq_def]

theorem serItemsTail_cons (w d : Nat) (x : JValue) (xs : JList) :
    serItemsTail w d (.cons x xs) =
    ',' :: (indentChars w d ++ serValue w d x ++ serItemsTail w d xs) := by
  rw [serItemsTail.eq_def]

theorem serItemsTail_nil (w d : Nat) : serItemsTail w d .nil = [] := by
  rw [serItemsTail.eq_def]

theorem serFieldsTail_cons (w d : Nat) (k : String) (v : JValue) (fs : JFields) :
    serFieldsTail w d (.cons k v fs) =
    ',' :: (indentChars w d ++
      (serString k ++ (':' :: colonGap w) ++ serValue w d v) ++
      serFieldsTail w d fs) := by
  rw [serFieldsTail.eq_def]

theorem serFieldsTail_nil (w d : Nat) : serFieldsTail w d .nil = [] := by
  rw [serFieldsTail.eq_def]

theorem wList_nil : wList .nil = 0 := by
  rw [wList.eq_def]

theorem wFields_nil : wFields .nil = 0 := by
  rw [wFields.eq_def]

theorem serValue_jnull (w d : Nat) : serValue w d .jnull = ['n', 'u', 'l', 'l'] := by
  rw [serValue.eq_def]

theorem serValue_jbool_true (w d : Nat) :
    serValue w d (.jbool true) = ['t', 'r', 'u', 'e'] := by
  rw [serValue.eq_def]

theorem serValue_jbool_false (w d : Nat) :
    serValue w d (.jbool false) = ['f', 'a', 'l', 's', 'e'] := by
  rw [serValue.eq_def]

theorem serValue_jarr_nilEq (w d : Nat) : serValue w d (.jarr .nil) = ['[', ']'] := by
  rw [serValue.eq_def]

theorem serValue_jobj_nilEq (w d : Nat) :
    serValue w d (.jobj .nil) = ['\x7b', '\x7d'] := by
  rw [serValue.eq_def]

theorem weight_jnull : weight .jnull = 1 := by rw [weight.eq_def]

theorem weight_jbool (b : Bool) : weight (.jbool b) = 1 := by
  cases b <;> rw [weight.eq_def]

theorem weight_jnum (n : Int) : weight (.jnum n) = 1 := by rw [weight.eq_def]

theorem weight_jstr (s : String) : weight (.jstr s) = 1 := by rw [weight.eq_def]

/-! ## serString helpers -/

theorem skipWs_serString (k : String) (zs : List Char) :
    skipWs (serString k ++ zs) = serString k ++ zs := by
  show skipWs (('"' :: (escChars k.data ++ ['"'])) ++ zs) = _
  rw [List.cons_append, skipWs_cons_not_ws _ _ (by decide), ← List.cons_append]
  rfl

theorem headIs_serString (b : Char) (hb : ('"' == b) = false) (k : String)
    (zs : List Char) : headIs b (serString k ++ zs) = false := by
  show headIs b (('"' :: (escChars k.data ++ ['"'])) ++ zs) = false
  rw [List.cons_append]
  show ('"' == b) = false
  exact hb

/-! ## The round trip: parsing a serialized value succeeds -/

theorem parse_ser_main : ∀ n : Nat,
    (∀ v : JValue, weight v ≤ n → ∀ fuel, weight v ≤ fuel → ∀ w d rest,
      noDigitHead rest = true →
      parseValue fuel (serValue w d v ++ rest) = some (v, rest)) ∧
    (∀ (x : JValue) (xs : JList), wList (.cons x xs) ≤ n → ∀ fuel,
      wList (.cons x xs) ≤ fuel → ∀ w d dc rest,
      parseItems fuel
        (indentChars w d ++ serValue w d x ++ serItemsTail w d xs ++
          indentChars w dc ++ (']' :: rest)) = some (.cons x xs, rest)) ∧
    (∀ (k : String) (v : JValue) (fs : JFields), wFields (.cons k v fs) ≤ n → ∀ fuel,
      wFields (.cons k v fs) ≤ fuel → ∀ w d dc rest,
      parseFields fuel
        (indentChars w d ++ serString k ++ (':' :: colonGap w) ++ serValue w d v ++
          serFieldsTail w d fs ++ indentChars w dc ++ ('\x7d' :: rest)) =
        some (.cons k v fs, rest)) := by
  intro n
  induction n using Nat.strong_induction_on with
  | _ n ih =>
    refine ⟨?_, ?_, ?_⟩
    · -- parseValue on a serialized value
      intro v hvn fuel hvf w d rest hrest
      cases fuel with
      | zero => exact absurd hvf (by have := weight_pos v; omega)
      | succ f =>
        cases v with
        | jnull => exact parseValue_succ_jnull f w d rest
        | jbool b => exact parseValue_succ_jbool f w d b rest
        | jnum m => exact parseValue_succ_jnum f w d m rest hrest
        | jstr s => exact parseValue_succ_jstr f w d s rest
        | jarr xs =>
          cases xs with
          | nil => exact parseValue_succ_jarr_nil f w d rest
          | cons x xs =>
            rw [weight_jarr] at hvn hvf
            have hwn : wList (.cons x xs) < n := by omega
            have hwf : wList (.cons x xs) ≤ f := by omega
            have hq := ((ih _ hwn).2.1) x xs le_rfl f hwf w (d + 1) d rest
            rw [serValue_jarr_cons, List.cons_append]
            rw [show (indentChars w (d + 1) ++ serValue w (d + 1) x ++
                serItemsTail w (d + 1) xs ++ indentChars w d ++ [']']) ++ rest =
                indentChars w (d + 1) ++ serValue w (d + 1) x ++
                serItemsTail w (d + 1) xs ++ indentChars w d ++ (']' :: rest) from by
              simp [List.append_assoc]]
            simp only [parseValue]
            rw [skipWs_cons_not_ws _ _ (by decide)]
            rw [show numTok ('[' :: (indentChars w (d + 1) ++ serValue w (d + 1) x ++
                serItemsTail w (d + 1) xs ++ indentChars w d ++ (']' :: rest))) =
                none from by
              simp [numTok, (show isDigitCh '[' = false from by decide)]]
            have hskip : skipWs (indentChars w (d + 1) ++ serValue w (d + 1) x ++
                serItemsTail w (d + 1) xs ++ indentChars w d ++ (']' :: rest)) =
                serValue w (d + 1) x ++ (serItemsTail w (d + 1) xs ++
                  indentChars w d ++ (']' :: rest)) := by
              rw [show indentChars w (d + 1) ++ serValue w (d + 1) x ++
                  serItemsTail w (d + 1) xs ++ indentChars w d ++ (']' :: rest) =
                  indentChars w (d + 1) ++ (serValue w (d + 1) x ++
                    (serItemsTail w (d + 1) xs ++ indentChars w d ++ (']' :: rest)))
                  from by simp [List.append_assoc]]
              rw [skipWs_indent, skipWs_serValue]
            have hhead : ∀ zs, headIs ']' (serValue w (d + 1) x ++ zs) = false :=
              fun zs => headIs_serValue_close ']' (Or.inl rfl) w (d + 1) x zs
            simp only [hskip, hhead, Bool.false_eq_true, if_false, hq,
              (by decide : ¬ ('[' : Char) = 'n'), (by decide : ¬ ('[' : Char) = 't'),
              (by decide : ¬ ('[' : Char) = 'f'), (by decide : ¬ ('[' : Char) = '"'),
              if_true, reduceIte]
        | jobj fs =>
          cases fs with
          | nil => exact parseValue_succ_jobj_nil f w d rest
          | cons k v fs =>
            rw [weight_jobj] at hvn hvf
            have hwn : wFields (.cons k v fs) < n := by omega
            have hwf : wFields (.cons k v fs) ≤ f := by omega
            have hq := ((ih _ hwn).2.2) k v fs le_rfl f hwf w (d + 1) d rest
            rw [serValue_jobj_cons, List.cons_append]
            rw [show (indentChars w (d + 1) ++
                (serString k ++ (':' :: colonGap w) ++ serValue w (d + 1) v) ++
                serFieldsTail w (d + 1) fs ++ indentChars w d ++ ['\x7d']) ++ rest =
                indentChars w (d + 1) ++ serString k ++ (':' :: colonGap w) ++
                serValue w (d + 1) v ++ serFieldsTail w (d + 1) fs ++
                indentChars w d ++ ('\x7d' :: rest) from by
              simp [List.append_assoc]]
            simp only [parseValue]
            rw [skipWs_cons_not_ws _ _ (by decide)]
            rw [show numTok ('\x7b' :: (indentChars w (d + 1) ++ serString k ++
                (':' :: colonGap w) ++ serValue w (d + 1) v ++
                serFieldsTail w (d + 1) fs ++ indentChars w d ++ ('\x7d' :: rest))) =
                none from by
              simp [numTok, (show isDigitCh '\x7b' = false from by decide)]]
            have hskip : skipWs (indentChars w (d + 1) ++ serString k ++
                (':' :: colonGap w) ++ serValue w (d + 1) v ++
                serFieldsTail w (d + 1) fs ++ indentChars w d ++ ('\x7d' :: rest)) =
                serString k ++ ((':' :: colonGap w) ++ (serValue w (d + 1) v ++
                  (serFieldsTail w (d + 1) fs ++ indentChars w d ++
                    ('\x7d' :: rest)))) := by
              rw [show indentChars w (d + 1) ++ serString k ++ (':' :: colonGap w) ++
                  serValue w (d + 1) v ++ serFieldsTail w (d + 1) fs ++
                  indentChars w d ++ ('\x7d' :: rest) =
                  indentChars w (d + 1) ++ (serString k ++ ((':' :: colonGap w) ++
                    (serValue w (d + 1) v ++ (serFieldsTail w (d + 1) fs ++
                      indentChars w d ++ ('\x7d' :: rest))))) from by
                simp [List.append_assoc]]
              rw [skipWs_indent, skipWs_serString]
            have hhead : ∀ zs, headIs '\x7d' (serString k ++ zs) = false :=
              fun zs => headIs_serString '\x7d' (by decide) k zs
            simp only [hskip, hhead, Bool.false_eq_true, if_false, hq,
              (by decide : ¬ ('\x7b' : Char) = 'n'), (by decide : ¬ ('\x7b' : Char) = 't'),
              (by decide : ¬ ('\x7b' : Char) = 'f'), (by decide : ¬ ('\x7b' : Char) = '"'),
              (by decide : ¬ ('\x7b' : Char) = '['), if_true, reduceIte]
    · -- parseItems on serialized elements
      intro x xs hn fuel hf w d dc rest
      rw [wList_cons] at hn hf
      cases fuel with
      | zero => exact absurd hf (by have := weight_pos x; omega)
      | succ f =>
        have hwx : weight x ≤ f := by omega
        have hwxn : weight x < n := by omega
        have hnd : noDigitHead (serItemsTail w d xs ++ indentChars w dc ++
            (']' :: rest)) = true :=
          noDigitHead_itemsTail w d dc xs ']' (by decide) rest
        have hpv := ((ih _ hwxn).1) x le_rfl f hwx w d
          (serItemsTail w d xs ++ indentChars w dc ++ (']' :: rest)) hnd
        simp only [parseItems]
        rw [show indentChars w d ++ serValue w d x ++ serItemsTail w d xs ++
            indentChars w dc ++ (']' :: rest) =
            indentChars w d ++ (serValue w d x ++ (serItemsTail w d xs ++
              indentChars w dc ++ (']' :: rest))) from by simp [List.append_assoc]]
        rw [parseValue_leading_ws f _ _ (indentChars_ws w d), hpv]
        cases xs with
        | nil =>
          rw [serItemsTail_nil]
          simp only [List.nil_append]
          rw [skipWs_indent, skipWs_cons_not_ws _ _ (by decide)]
          simp [headIs]
        | cons y ys =>
          rw [wList_cons] at hn hf
          have hyn : wList (.cons y ys) < n := by
            rw [wList_cons]; have := weight_pos x; omega
          have hyf : wList (.cons y ys) ≤ f := by
            rw [wList_cons]; have := weight_pos x; omega
          have hq := ((ih _ hyn).2.1) y ys le_rfl f hyf w d dc rest
          rw [serItemsTail_cons]
          simp only [List.cons_append]
          rw [skipWs_cons_not_ws _ _ (by decide)]
          simp only [headIs, List.drop_succ_cons, List.drop_zero,
            (show (',' == ']') = false from by decide),
            (show (',' == ',') = true from by decide),
            Bool.false_eq_true, if_false, if_true, hq]
    · -- parseFields on serialized fields
      intro k v fs hn fuel hf w d dc rest
      rw [wFields_cons] at hn hf
      cases fuel with
      | zero => exact absurd hf (by have := weight_pos v; omega)
      | succ f =>
        have hwv : weight v ≤ f := by omega
        have hwvn : weight v < n := by omega
        have hnd : noDigitHead (serFieldsTail w d fs ++ indentChars w dc ++
            ('\x7d' :: rest)) = true :=
          noDigitHead_fieldsTail w d dc fs '\x7d' (by decide) rest
        have hpv := ((ih _ hwvn).1) v le_rfl f hwv w d
          (serFieldsTail w d fs ++ indentChars w dc ++ ('\x7d' :: rest)) hnd
        simp only [parseFields]
        rw [show indentChars w d ++ serString k ++ (':' :: colonGap w) ++
            serValue w d v ++ serFieldsTail w d fs ++ indentChars w dc ++
            ('\x7d' :: rest) =
            indentChars w d ++ ('"' :: (escChars k.data ++ ('"' ::
              (':' :: (colonGap w ++ (serValue w d v ++ (serFieldsTail w d fs ++
                indentChars w dc ++ ('\x7d' :: rest)))))))) from by
          simp [serString, List.append_assoc]]
        rw [skipWs_indent, skipWs_cons_not_ws _ _ (by decide)]
        simp only [eq_self_iff_true, if_true]
        rw [parseStringBody_esc k.data]
        have hsk1 : skipWs (':' :: (colonGap w ++ (serValue w d v ++
            (serFieldsTail w d fs ++ indentChars w dc ++ ('\x7d' :: rest))))) =
            ':' :: (colonGap w ++ (serValue w d v ++ (serFieldsTail w d fs ++
            indentChars w dc ++ ('\x7d' :: rest)))) :=
          skipWs_cons_not_ws _ _ (by decide)
        have hpv2 : parseValue f (colonGap w ++ (serValue w d v ++
            (serFieldsTail w d fs ++ indentChars w dc ++ ('\x7d' :: rest)))) =
            some (v, serFieldsTail w d fs ++ indentChars w dc ++ ('\x7d' :: rest)) := by
          rw [parseValue_leading_ws f _ _ (colonGap_ws w), hpv]
        simp only [hsk1, headIs, (show (':' == ':') = true from by decide), if_true,
          List.drop_succ_cons, List.drop_zero, hpv2]
        cases fs with
        | nil =>
          rw [serFieldsTail_nil]
          simp only [List.nil_append]
          rw [skipWs_indent, skipWs_cons_not_ws _ _ (by decide)]
          simp [headIs, stringMk_data]
        | cons k2 v2 gs =>
          rw [wFields_cons] at hn hf
          have hyn : wFields (.cons k2 v2 gs) < n := by
            rw [wFields_cons]; have := weight_pos v; omega
          have hyf : wFields (.cons k2 v2 gs) ≤ f := by
            rw [wFields_cons]; have := weight_pos v; omega
          have hq := ((ih _ hyn).2.2) k2 v2 gs le_rfl f hyf w d dc rest
          rw [serFieldsTail_cons]
          simp only [List.cons_append]
          rw [skipWs_cons_not_ws _ _ (by decide)]
          rw [show (indentChars w d ++ (serString k2 ++ (':' :: colonGap w) ++
              serValue w d v2) ++ serFieldsTail w d gs ++ indentChars w dc) ++
              ('\x7d' :: rest) =
              indentChars w d ++ serString k2 ++ (':' :: colonGap w) ++
              serValue w d v2 ++ serFieldsTail w d gs ++ indentChars w dc ++
              ('\x7d' :: rest) from by simp [List.append_assoc]]
          simp only [headIs, List.drop_succ_cons, List.drop_zero,
            (show (',' == '\x7d') = false from by decide),
            (show (',' == ',') = true from by decide),
            Bool.false_eq_true, if_false, if_true, hq, stringMk_data]

/-! ## Corollaries of the round trip -/

theorem parseValue_ser (v : JValue) (fuel : Nat) (h : weight v ≤ fuel) (w d : Nat)
    (rest : List Char) (hrest : noDigitHead rest = true) :
    parseValue fuel (serValue w d v ++ rest) = some (v, rest) :=
  ((parse_ser_main (weight v)).1) v le_rfl fuel h w d rest hrest

theorem serValue_jnum (w d : Nat) (n : Int) : serValue w d (.jnum n) = intToChars n := by
  rw [serValue.eq_def]

theorem serValue_jstr (w d : Nat) (s : String) : serValue w d (.jstr s) = serString s := by
  rw [serValue.eq_def]

theorem weight_le_serLen : ∀ n : Nat,
    (∀ v : JValue, weight v ≤ n → ∀ w d, weight v ≤ (serValue w d v).length) ∧
    (∀ xs : JList, wList xs ≤ n → ∀ w d, wList xs ≤ (serItemsTail w d xs).length) ∧
    (∀ fs : JFields, wFields fs ≤ n → ∀ w d, wFields fs ≤ (serFieldsTail w d fs).length) := by
  intro n
  induction n using Nat.strong_induction_on with
  | _ n ih =>
    refine ⟨?_, ?_, ?_⟩
    · intro v hvn w d
      cases v with
      | jnull => rw [weight_jnull, serValue_jnull]; simp
      | jbool b =>
        cases b with
        | true => rw [weight_jbool, serValue_jbool_true]; simp
        | false => rw [weight_jbool, serValue_jbool_false]; simp
      | jnum m =>
        rw [weight_jnum, serValue_jnum]
        cases m with
        | ofNat q =>
          have : intToChars (Int.ofNat q) = natToChars q := by
            unfold intToChars
            rw [if_neg (by exact not_lt.mpr (Int.ofNat_nonneg q))]
            rfl
          rw [this]
          obtain ⟨c, cs, hcons, _⟩ := natToChars_cons q
          rw [hcons]; simp
        | negSucc q =>
          have : intToChars (Int.negSucc q) = '-' :: natToChars (q + 1) := by
            unfold intToChars
            rw [if_pos (Int.negSucc_lt_zero q)]
            rfl
          rw [this]; simp
      | jstr s =>
        rw [weight_jstr, serValue_jstr]
        show 1 ≤ ('"' :: (escChars s.data ++ ['"'])).length
        simp
      | jarr xs =>
        cases xs with
        | nil => rw [weight_jarr, wList_nil, serValue_jarr_nilEq]; simp
        | cons x xs =>
          rw [weight_jarr, wList_cons] at hvn ⊢
          have hx := (ih (weight x) (by have := weight_pos x; omega)).1 x le_rfl w (d + 1)
          have hxs := (ih (wList xs) (by have := weight_pos x; omega)).2.1 xs le_rfl
            w (d + 1)
          rw [serValue_jarr_cons]
          simp only [List.length_cons, List.length_append]
          have := hxs
          omega
      | jobj fs =>
        cases fs with
        | nil => rw [weight_jobj, wFields_nil, serValue_jobj_nilEq]; simp
        | cons k v fs =>
          rw [weight_jobj, wFields_cons] at hvn ⊢
          have hx := (ih (weight v) (by have := weight_pos v; omega)).1 v le_rfl w (d + 1)
          have hxs := (ih (wFields fs) (by have := weight_pos v; omega)).2.2 fs le_rfl
            w (d + 1)
          rw [serValue_jobj_cons]
          simp only [List.length_cons, List.length_append]
          omega
    · intro xs hxn w d
      cases xs with
      | nil => rw [wList_nil]; simp
      | cons y ys =>
        rw [wList_cons] at hxn ⊢
        have hy := (ih (weight y) (by have := weight_pos y; omega)).1 y le_rfl w d
        have hys := (ih (wList ys) (by have := weight_pos y; omega)).2.1 ys le_rfl w d
        rw [serItemsTail_cons]
        simp only [List.length_cons, List.length_append]
        omega
    · intro fs hfn w d
      cases fs with
      | nil => rw [wFields_nil]; simp
      | cons k v gs =>
        rw [wFields_cons] at hfn ⊢
        have hv := (ih (weight v) (by have := weight_pos v; omega)).1 v le_rfl w d
        have hgs := (ih (wFields gs) (by have := weight_pos v; omega)).2.2 gs le_rfl w d
        rw [serFieldsTail_cons]
        simp only [List.length_cons, List.length_append]
        omega

theorem parseJson_ser_trail (w : Nat) (v : JValue) (trail : List Char)
    (ht : ∀ c ∈ trail, isJsonWs c = true) :
    parseJson (String.mk (serValue w 0 v ++ trail)) = some v := by
  unfold parseJson
  have hd : (String.mk (serValue w 0 v ++ trail)).data = serValue w 0 v ++ trail := rfl
  rw [hd]
  have hlen := (weight_le_serLen (weight v)).1 v le_rfl w 0
  have hfuel : weight v ≤ (serValue w 0 v ++ trail).length + 1 := by
    simp only [List.length_append]
    omega
  have hnd : noDigitHead trail = true := by
    cases trail with
    | nil => rfl
    | cons c t =>
      have := ws_not_digit (ht c (by simp))
      simp [noDigitHead, this]
  rw [parseValue_ser v _ hfuel w 0 trail hnd]
  simp [skipWs_all_ws trail ht]

theorem parseJson_stringify (w : Nat) (v : JValue) :
    parseJson (stringifyJson w v) = some v := by
  have h := parseJson_ser_trail w v [] (by simp)
  rw [List.append_nil] at h
  exact h

theorem parseJson_stringify_newline (w : Nat) (v : JValue) :
    parseJson (stringifyJson w v ++ "\n") = some v := by
  have h := parseJson_ser_trail w v ['\n']
    (by intro c hc; simp at hc; rw [hc]; decide)
  have heq : stringifyJson w v ++ "\n" = String.mk (serValue w 0 v ++ ['\n']) := rfl
  rw [heq, h]

/-! ## Equation lemmas for the step/runner definitions -/

theorem caseFold_jstr (f : String → String) (s : String) :
    caseFoldValue f (.jstr s) = .jstr (f s) := by
  rw [caseFoldValue.eq_def]

theorem caseFold_jarr (f : String → String) (items : JList) :
    caseFoldValue f (.jarr items) = .jarr (items.mapTop (elemFold f)) := by
  rw [caseFoldValue.eq_def]

theorem caseFold_jobj (f : String → String) (fields : JFields) :
    caseFoldValue f (.jobj fields) = .jobj (fields.mapVals (elemFold f)) := by
  rw [caseFoldValue.eq_def]

theorem caseFold_jnum (f : String → String) (n : Int) :
    caseFoldValue f (.jnum n) = .jnum n := by
  rw [caseFoldValue.eq_def]

theorem caseFold_jbool (f : String → String) (b : Bool) :
    caseFoldValue f (.jbool b) = .jbool b := by
  cases b <;> rw [caseFoldValue.eq_def]

theorem caseFold_jnull (f : String → String) : caseFoldValue f .jnull = .jnull := by
  rw [caseFoldValue.eq_def]

theorem elemFold_jstr (f : String → String) (s : String) :
    elemFold f (.jstr s) = .jstr (f s) := by
  rw [elemFold.eq_def]

theorem elemFold_jnum (f : String → String) (n : Int) :
    elemFold f (.jnum n) = .jnum n := by
  rw [elemFold.eq_def]

theorem elemFold_jbool (f : String → String) (b : Bool) :
    elemFold f (.jbool b) = .jbool b := by
  cases b <;> rw [elemFold.eq_def]

theorem elemFold_jnull (f : String → String) : elemFold f .jnull = .jnull := by
  rw [elemFold.eq_def]

theorem elemFold_jarr (f : String → String) (xs : JList) :
    elemFold f (.jarr xs) = .jarr xs := by
  rw [elemFold.eq_def]

theorem elemFold_jobj (f : String → String) (fs : JFields) :
    elemFold f (.jobj fs) = .jobj fs := by
  rw [elemFold.eq_def]

theorem mapTop_nil (f : JValue → JValue) : JList.mapTop f .nil = .nil := by
  rw [JList.mapTop.eq_def]

theorem mapTop_cons (f : JValue → JValue) (v : JValue) (vs : JList) :
    JList.mapTop f (.cons v vs) = .cons (f v) (JList.mapTop f vs) := by
  rw [JList.mapTop.eq_def]

theorem mapVals_nil (f : JValue → JValue) : JFields.mapVals f .nil = .nil := by
  rw [JFields.mapVals.eq_def]

theorem mapVals_cons (f : JValue → JValue) (k : String) (v : JValue) (fs : JFields) :
    JFields.mapVals f (.cons k v fs) = .cons k (f v) (JFields.mapVals f fs) := by
  rw [JFields.mapVals.eq_def]

theorem jlist_length_cons (v : JValue) (vs : JList) :
    JList.length (.cons v vs) = JList.length vs + 1 := by
  rw [JList.length.eq_def]

theorem jlist_get_mapTop_aux (f : JValue → JValue) : ∀ (n : Nat) (xs : JList),
    JList.length xs ≤ n →
    ∀ i, JList.get? (JList.mapTop f xs) i = (JList.get? xs i).map f := by
  intro n
  induction n with
  | zero =>
    intro xs h i
    cases xs with
    | nil => rw [mapTop_nil]; rfl
    | cons v vs => rw [jlist_length_cons] at h; omega
  | succ m ih =>
    intro xs h i
    cases xs with
    | nil => rw [mapTop_nil]; rfl
    | cons v vs =>
      rw [mapTop_cons]
      cases i with
      | zero => rfl
      | succ j =>
        rw [show JList.get? (.cons (f v) (JList.mapTop f vs)) (j + 1) =
          JList.get? (JList.mapTop f vs) j from by rw [JList.get?.eq_def]]
        rw [show JList.get? (JList.cons v vs) (j + 1) = JList.get? vs j from by
          rw [JList.get?.eq_def]]
        rw [jlist_length_cons] at h
        exact ih vs (by omega) j

theorem jlist_get_mapTop (f : JValue → JValue) (xs : JList) (i : Nat) :
    JList.get? (JList.mapTop f xs) i = (JList.get? xs i).map f :=
  jlist_get_mapTop_aux f (JList.length xs) xs le_rfl i

theorem jfields_size_cons (k : String) (v : JValue) (fs : JFields) :
    (JFields.keys (.cons k v fs)).length = (JFields.keys fs).length + 1 := by
  rw [JFields.keys.eq_def]
  rfl

theorem jfields_get_mapVals_aux (f : JValue → JValue) : ∀ (n : Nat) (fs : JFields),
    (JFields.keys fs).length ≤ n →
    ∀ i, JFields.get? (JFields.mapVals f fs) i =
      (JFields.get? fs i).map (fun p => (p.1, f p.2)) := by
  intro n
  induction n with
  | zero =>
    intro fs h i
    cases fs with
    | nil => rw [mapVals_nil]; rfl
    | cons k v gs => rw [jfields_size_cons] at h; omega
  | succ m ih =>
    intro fs h i
    cases fs with
    | nil => rw [mapVals_nil]; rfl
    | cons k v gs =>
      rw [mapVals_cons]
      cases i with
      | zero => rfl
      | succ j =>
        rw [show JFields.get? (.cons k (f v) (JFields.mapVals f gs)) (j + 1) =
          JFields.get? (JFields.mapVals f gs) j from by rw [JFields.get?.eq_def]]
        rw [show JFields.get? (JFields.cons k v gs) (j + 1) = JFields.get? gs j from by
          rw [JFields.get?.eq_def]]
        rw [jfields_size_cons] at h
        exact ih gs (by omega) j

theorem jfields_get_mapVals (f : JValue → JValue) (fs : JFields) (i : Nat) :
    JFields.get? (JFields.mapVals f fs) i =
      (JFields.get? fs i).map (fun p => (p.1, f p.2)) :=
  jfields_get_mapVals_aux f (JFields.keys fs).length fs le_rfl i

/-! ## Template placeholder lemmas -/

theorem matchKeyAt_nil (key : List Char) : matchKeyAt key [] = none := rfl

theorem replaceCore_no_occur (key repl : List Char) : ∀ (fuel : Nat) (cs : List Char),
    (∀ n, matchKeyAt key (List.drop n cs) = none) → replaceCore key repl fuel cs = cs := by
  intro fuel
  induction fuel with
  | zero => intro cs _; rw [replaceCore.eq_def]
  | succ f ih =>
    intro cs h
    cases cs with
    | nil => rw [replaceCore.eq_def]
    | cons c t =>
      have h0 : matchKeyAt key (c :: t) = none := by
        have := h 0
        simpa using this
      rw [replaceCore.eq_def]
      simp only [h0]
      rw [ih t (fun n => by have := h (n + 1); simpa [List.drop_succ_cons] using this)]

theorem noKeyOccur_all (key cs : List Char) (h : noKeyOccur key cs = true) :
    ∀ n, matchKeyAt key (List.drop n cs) = none := by
  intro n
  by_cases hn : n ≤ cs.length
  · have hmem : n ∈ List.range (cs.length + 1) := List.mem_range.mpr (by omega)
    have := List.all_eq_true.mp h n hmem
    simpa [Option.isNone_iff_eq_none] using this
  · rw [List.drop_eq_nil_of_le (by omega)]
    exact matchKeyAt_nil key

/-! ## File-system lemmas -/

theorem fsLookup_fsWrite_self (fs : FileSys) (k v : String) :
    fsLookup (fsWrite fs k v) k = some v := by
  simp [fsLookup, fsWrite, List.lookup]

theorem runFileSteps_v1_nil (tf : TransformFn) (file : InFile) (ji : Nat)
    (st : FileSys) : runFileSteps_v1 tf [] file ji st = (st, none) := by
  rw [runFileSteps_v1.eq_def]

theorem runFileSteps_v1_cons (tf : TransformFn) (s : WStep) (rest : List WStep)
    (file : InFile) (ji : Nat) (st : FileSys) :
    runFileSteps_v1 tf (s :: rest) file ji st =
      match runWorkflowStep_v1 tf file s ji st with
      | .error e => (st, some e)
      | .ok fs' => runFileSteps_v1 tf rest file ji fs' := by
  rw [runFileSteps_v1.eq_def]

theorem runFiles_v1_nil (tf : TransformFn) (steps : List WStep) (ji : Nat)
    (st : FileSys) : runFiles_v1 tf steps [] ji st = (st, none) := by
  rw [runFiles_v1.eq_def]

theorem runFiles_v1_cons (tf : TransformFn) (steps : List WStep) (f : InFile)
    (rest : List InFile) (ji : Nat) (st : FileSys) :
    runFiles_v1 tf steps (f :: rest) ji st =
      match runFileSteps_v1 tf steps f ji st with
      | (fs', none) => runFiles_v1 tf steps rest ji fs'
      | (fs', some e) => (fs', some e) := by
  rw [runFiles_v1.eq_def]

theorem runFileSteps_v2_nil (tf : TransformFn) (file : InFile) (st : FileSys) :
    runFileSteps_v2 tf [] file st = (st, none) := by
  rw [runFileSteps_v2.eq_def]

theorem runFileSteps_v2_cons (tf : TransformFn) (s : WStep) (rest : List WStep)
    (file : InFile) (st : FileSys) :
    runFileSteps_v2 tf (s :: rest) file st =
      match runWorkflowStep_v2 tf file s st with
      | .error e => (st, some e)
      | .ok fs' => runFileSteps_v2 tf rest file fs' := by
  rw [runFileSteps_v2.eq_def]

theorem runFiles_v2_nil (tf : TransformFn) (force : Bool) (steps : List WStep)
    (st : FileSys) : runFiles_v2 tf force steps [] st = (st, none) := by
  rw [runFiles_v2.eq_def]

theorem runFiles_v2_cons (tf : TransformFn) (force : Bool) (steps : List WStep)
    (f : InFile) (rest : List InFile) (st : FileSys) :
    runFiles_v2 tf force steps (f :: rest) st =
      if (fsLookup st (outName_v2 f)).isSome && !force then
        runFiles_v2 tf force steps rest st
      else
        match runFileSteps_v2 tf steps f st with
        | (fs', none) => runFiles_v2 tf force steps rest fs'
        | (fs', some e) =>
          if force then runFiles_v2 tf force steps rest fs'
          else (fs', some e) := by
  rw [runFiles_v2.eq_def]

/-! ## CSV row-shape lemmas -/

theorem jfields_ofList_nil : JFields.ofList [] = .nil := by
  rw [JFields.ofList.eq_def]

theorem jfields_ofList_cons (k : String) (v : JValue) (l : List (String × JValue)) :
    JFields.ofList ((k, v) :: l) = .cons k v (JFields.ofList l) := by
  rw [JFields.ofList.eq_def]

theorem jfields_keys_nil : JFields.keys .nil = [] := by
  rw [JFields.keys.eq_def]

theorem jfields_keys_cons (k : String) (v : JValue) (fs : JFields) :
    JFields.keys (.cons k v fs) = k :: JFields.keys fs := by
  rw [JFields.keys.eq_def]

theorem jfields_keys_ofList_map (g : Nat × String → JValue)
    (l : List (Nat × String)) :
    JFields.keys (JFields.ofList (l.map (fun p => (p.2, g p)))) =
      l.map (fun p => p.2) := by
  induction l with
  | nil => rw [List.map_nil, jfields_ofList_nil, jfields_keys_nil, List.map_nil]
  | cons p t ih =>
    rw [List.map_cons, jfields_ofList_cons, jfields_keys_cons, ih, List.map_cons]

theorem csvRowFields_keys (headers values : List String) :
    JFields.keys (csvRowFields headers values) = headers := by
  unfold csvRowFields
  rw [jfields_keys_ofList_map]
  exact List.enum_map_snd headers

theorem jlist_ofList_nil : JList.ofList [] = .nil := by
  rw [JList.ofList.eq_def]

theorem jlist_ofList_cons (v : JValue) (l : List JValue) :
    JList.ofList (v :: l) = .cons v (JList.ofList l) := by
  rw [JList.ofList.eq_def]

theorem jlist_length_nil : JList.length .nil = 0 := by
  rw [JList.length.eq_def]

theorem jlist_length_ofList (l : List JValue) :
    JList.length (JList.ofList l) = l.length := by
  induction l with
  | nil => rw [jlist_ofList_nil, jlist_length_nil]; rfl
  | cons v t ih =>
    rw [jlist_ofList_cons, jlist_length_cons, ih, List.length_cons]

theorem csvParseContent_row_count (content : String) :
    (match csvParseContent content with
     | .jarr xs => JList.length xs
     | _ => 0) = (csvDataLines content).length := by
  unfold csvParseContent csvDataLines
  cases h : (jsSplit '\n' content).filter (fun l => !(jsTrim l == "")) with
  | nil => simp [jlist_length_nil]
  | cons header rest =>
    simp only []
    rw [jlist_length_ofList]
    simp

/-! ## Reductions of `writeOutputFile` and integer JSON parsing -/

theorem writeOutput_run_jarr (xs : JList) (ji : Nat) :
    writeOutputFile_run (.jarr xs) ji = stringifyJson ji (.jarr xs) ++ "\n" := rfl

theorem writeOutput_run_jobj (fs : JFields) (ji : Nat) :
    writeOutputFile_run (.jobj fs) ji = stringifyJson ji (.jobj fs) ++ "\n" := rfl

theorem jsString_jnum (n : Int) : jsString (.jnum n) = String.mk (intToChars n) := by
  rw [jsString.eq_def]

theorem writeOutput_run_jnum (n : Int) (ji : Nat) :
    writeOutputFile_run (.jnum n) ji = String.mk (intToChars n) := by
  show jsString (.jnum n) = String.mk (intToChars n)
  exact jsString_jnum n

theorem parseJson_int (n : Int) : parseJson (String.mk (intToChars n)) = some (.jnum n) := by
  have h := parseJson_ser_trail 0 (.jnum n) [] (by simp)
  rw [serValue_jnum, List.append_nil] at h
  exact h

/-! # Claim theorems -/

/-- C1: the spec says the content written after the last step equals the
strict left-to-right fold of the steps over the parsed file content, each
step receiving the previous step's output.  The code instead re-parses the
original input file at every step and overwrites the output file, so the
final content is the last step applied to the original parsed input: on
the text file `greeting.txt` containing `Hello {{ name }}` with the steps
`[template (name := World), toUpperCase]` the run writes
`HELLO {{ NAME }}` while the spec's fold produces `HELLO WORLD`. -/
theorem c1_each_step_reparses_original :
    runWorkflow_v1 tfUnused false [templateStep, upperStep] [greetFile] 2 [] =
      ([("greeting.txt", "HELLO \x7b\x7b NAME \x7d\x7d")], none) ∧
    specFoldSteps tfUnused [templateStep, upperStep]
      (parseFileContent_run greetFile.raw greetFile.ext) =
      .ok (.jstr "HELLO WORLD") ∧
    ("HELLO \x7b\x7b NAME \x7d\x7d" : String) ≠ "HELLO WORLD" :=
  ⟨rfl, rfl, by decide⟩

/-- C2 (counterexample): with `force = true`, a step error on the first
file still aborts the whole run of src/src/commands/run.ts — the error
propagates and the second input file's output is never produced — so the
claim "if force is true the run logs the error and continues with the
next input file" is false for this variant. -/
theorem c2_counterexample :
    runWorkflow_v1 tfUnused true [badStep]
      [⟨"a", ".txt", "x"⟩, ⟨"b", ".txt", "y"⟩] 2 [] =
      ([], some "Unknown built-in function: nope") ∧
    fsLookup [] "b.txt" = none :=
  ⟨rfl, rfl⟩

/-- C2 (amended): in src/src/commands/run.ts a failing file aborts the
run regardless of `force`; in the child-process variant of
src/unnamed/part_004, a per-file error with `force` is swallowed and the
run continues with the next file (and never aborts), while without
`force` the error aborts the run before any subsequent file. -/
theorem c2_force_error_policy :
    (∀ (tf : TransformFn) (force : Bool) (steps : List WStep) (f : InFile)
      (rest : List InFile) (ji : Nat) (st fs' : FileSys) (e : String),
      runFileSteps_v1 tf (forceSteps force steps) f ji st = (fs', some e) →
      runWorkflow_v1 tf force steps (f :: rest) ji st = (fs', some e)) ∧
    (∀ (tf : TransformFn) (steps : List WStep) (f : InFile) (rest : List InFile)
      (st fs' : FileSys) (e : String),
      runFileSteps_v2 tf steps f st = (fs', some e) →
      runFiles_v2 tf true steps (f :: rest) st = runFiles_v2 tf true steps rest fs') ∧
    (∀ (tf : TransformFn) (steps : List WStep) (files : List InFile) (st : FileSys),
      (runFiles_v2 tf true steps files st).2 = none) ∧
    (∀ (tf : TransformFn) (steps : List WStep) (f : InFile) (rest : List InFile)
      (st fs' : FileSys) (e : String),
      (fsLookup st (outName_v2 f)).isSome = false →
      runFileSteps_v2 tf steps f st = (fs', some e) →
      runFiles_v2 tf false steps (f :: rest) st = (fs', some e)) ∧
    runFiles_v2 tfUnused true [upperStep]
      [⟨"a", ".json", "\x7boops"⟩, ⟨"b", ".txt", "y"⟩] [] =
      ([("b.json", "\"Y\"")], none) ∧
    runFiles_v2 tfUnused false [upperStep]
      [⟨"a", ".json", "\x7boops"⟩, ⟨"b", ".txt", "y"⟩] [] =
      ([], some "Failed to parse file") := by
  refine ⟨?_, ?_, ?_, ?_, rfl, rfl⟩
  · intro tf force steps f rest ji st fs' e h
    unfold runWorkflow_v1
    rw [runFiles_v1_cons, h]
  · intro tf steps f rest st fs' e h
    rw [runFiles_v2_cons, h]
    simp
  · intro tf steps files st
    induction files generalizing st with
    | nil => rw [runFiles_v2_nil]
    | cons f rest ih =>
      rw [runFiles_v2_cons]
      by_cases hskip : ((fsLookup st (outName_v2 f)).isSome && !true) = true
      · rw [if_pos hskip]; exact ih st
      · rw [if_neg hskip]
        cases hr : runFileSteps_v2 tf steps f st with
        | mk fs' err =>
          cases err with
          | none => exact ih fs'
          | some e => simp only [if_pos rfl]; exact ih fs'
  · intro tf steps f rest st fs' e hlook h
    rw [runFiles_v2_cons, hlook, h]
    simp

/-- C2 witness: a concrete aborting run of the run.ts variant with
`force = true`. -/
theorem c2_force_error_policy_witness :
    runWorkflow_v1 tfUnused true [badStep]
      [⟨"a2", ".txt", "x"⟩, ⟨"b2", ".txt", "y"⟩] 2 [] =
      ([], some "Unknown built-in function: nope") :=
  c2_force_error_policy.1 tfUnused true [badStep] ⟨"a2", ".txt", "x"⟩
    [⟨"b2", ".txt", "y"⟩] 2 [] [] "Unknown built-in function: nope" rfl

/-- C3 (counterexample): a step with `skip_existing = true` does skip
when the output exists, but the output file's prior content is NOT
byte-identical after the run when another step lacks `skip_existing`:
here the second step rewrites `doc.txt` from `old` to `HI`. -/
theorem c3_counterexample :
    skipFilterStep.skip_existing = true ∧
    (fsLookup [("doc.txt", "old")]
      (InFile.fileName ⟨"doc", ".txt", "hi"⟩)).isSome = true ∧
    runWorkflowStep_v1 tfUnused ⟨"doc", ".txt", "hi"⟩ skipFilterStep 2
      [("doc.txt", "old")] = .ok [("doc.txt", "old")] ∧
    runWorkflow_v1 tfUnused false [skipFilterStep, upperStep]
      [⟨"doc", ".txt", "hi"⟩] 2 [("doc.txt", "old")] =
      ([("doc.txt", "HI")], none) ∧
    (some "HI" : Option String) ≠ some "old" :=
  ⟨rfl, rfl, rfl, rfl, by decide⟩

/-- C3 (amended): a step with `skip_existing` and an existing output is a
complete no-op for that file; when every step has `skip_existing` (and
`force` is off) the whole run leaves the outputs byte-identical; `force`
disables `skip_existing` on every step, so the file is re-processed and
its output rewritten even when it exists. -/
theorem c3_skip_existing_policy :
    (∀ (tf : TransformFn) (file : InFile) (nm ty fn : String)
      (opts : List (String × JValue)) (ji : Nat) (st : FileSys),
      (fsLookup st file.fileName).isSome = true →
      runWorkflowStep_v1 tf file ⟨nm, ty, fn, opts, true⟩ ji st = .ok st) ∧
    (∀ (tf : TransformFn) (steps : List WStep) (files : List InFile) (ji : Nat)
      (st : FileSys),
      (∀ s ∈ steps, s.skip_existing = true) →
      (∀ f ∈ files, (fsLookup st (InFile.fileName f)).isSome = true) →
      runWorkflow_v1 tf false steps files ji st = (st, none)) ∧
    (∀ (tf : TransformFn) (steps : List WStep) (files : List InFile) (ji : Nat)
      (st : FileSys),
      runWorkflow_v1 tf true steps files ji st =
        runWorkflow_v1 tf false
          (steps.map (fun s => { s with skip_existing := false })) files ji st) ∧
    runWorkflow_v1 tfUnused true [skipFilterStep] [⟨"doc", ".txt", "hi"⟩] 2
      [("doc.txt", "old")] = ([("doc.txt", "hi")], none) := by
  have hstep : ∀ (tf : TransformFn) (file : InFile) (nm ty fn : String)
      (opts : List (String × JValue)) (ji : Nat) (st : FileSys),
      (fsLookup st file.fileName).isSome = true →
      runWorkflowStep_v1 tf file ⟨nm, ty, fn, opts, true⟩ ji st = .ok st := by
    intro tf file nm ty fn opts ji st h
    unfold runWorkflowStep_v1
    simp [h]
  refine ⟨hstep, ?_, ?_, rfl⟩
  · intro tf steps files ji st hsteps hfiles
    have hfile : ∀ (f : InFile), (fsLookup st (InFile.fileName f)).isSome = true →
        runFileSteps_v1 tf steps f ji st = (st, none) := by
      intro f hf
      clear hfiles
      induction steps with
      | nil => exact runFileSteps_v1_nil tf f ji st
      | cons s rest ih =>
        rw [runFileSteps_v1_cons]
        have hs : s.skip_existing = true := hsteps s (by simp)
        have : runWorkflowStep_v1 tf f s ji st = .ok st := by
          have h2 := hstep tf f s.name s.type s.function s.options ji st hf
          have hrepr : s = ⟨s.name, s.type, s.function, s.options, true⟩ := by
            cases s with
            | mk nm ty fn opts sk =>
              simp only at hs
              rw [hs]
          rw [hrepr]
          exact h2
        rw [this]
        exact ih (fun s2 h2 => hsteps s2 (by simp [h2]))
    unfold runWorkflow_v1
    rw [show forceSteps false steps = steps from by unfold forceSteps; simp]
    induction files with
    | nil => exact runFiles_v1_nil tf steps ji st
    | cons f rest ih =>
      rw [runFiles_v1_cons, hfile f (hfiles f (by simp))]
      exact ih (fun f2 h2 => hfiles f2 (by simp [h2]))
  · intro tf steps files ji st
    unfold runWorkflow_v1 forceSteps
    simp

/-- C3 witness: a concrete skipping step leaving the state unchanged. -/
theorem c3_skip_existing_policy_witness :
    runWorkflowStep_v1 tfUnused ⟨"doc3", ".txt", "hi"⟩
      ⟨"keep-skip", "filter", "unused", [], true⟩ 2 [("doc3.txt", "old")] =
      .ok [("doc3.txt", "old")] :=
  c3_skip_existing_policy.1 tfUnused ⟨"doc3", ".txt", "hi"⟩ "keep-skip" "filter"
    "unused" [] 2 [("doc3.txt", "old")] rfl

/-- C4 (counterexample): the built-in JSON parser of run.ts does fall
back: on the malformed `.json` content the parse failure is caught, the
raw text is returned, the file's processing continues and the raw text is
written — there is no fatal parse error. -/
theorem c4_counterexample :
    parseJson "\x7boops" = none ∧
    parseFileContent_run "\x7boops" ".json" = .jstr "\x7boops" ∧
    runWorkflow_v1 tfUnused false [filterStep] [⟨"d", ".json", "\x7boops"⟩] 2 [] =
      ([("d.json", "\x7boops")], none) :=
  ⟨rfl, rfl, rfl⟩

/-- C4 (amended): `.json` parsing is a strict JSON parse whose result is
used when it succeeds, but on malformed JSON the failure is caught and
the raw text returned (the code's own `Fallback to raw content` branch);
the file is not failed. -/
theorem c4_json_parse_fallback :
    (∀ (raw : String) (v : JValue), parseJson raw = some v →
      parseFileContent_run raw ".json" = v) ∧
    (∀ raw : String, parseJson raw = none →
      parseFileContent_run raw ".json" = .jstr raw) := by
  constructor
  · intro raw v h
    unfold parseFileContent_run
    rw [if_pos rfl, h]
  · intro raw h
    unfold parseFileContent_run
    rw [if_pos rfl, h]

/-- C4 witness: the fallback at a concrete malformed input, and the
strict parse at a concrete well-formed input. -/
theorem c4_json_parse_fallback_witness :
    parseFileContent_run "\x7bnope" ".json" = .jstr "\x7bnope" ∧
    parseFileContent_run "[1]" ".json" = .jarr (.cons (.jnum 1) .nil) :=
  ⟨c4_json_parse_fallback.2 "\x7bnope" rfl,
   c4_json_parse_fallback.1 "[1]" (.jarr (.cons (.jnum 1) .nil)) rfl⟩

/-- C5: the sandbox close handler returns exactly the JSON value the
script returned when the exit code is 0 (parsing only the primary
channel; a non-JSON primary channel is the result-parse error); a
nonzero exit code is the script-execution error carrying the
diagnostic-channel text minus the `LOG:`-tagged chunks; and the result
never depends on the diagnostic channel. -/
theorem c5_sandbox_close_contract :
    (∀ (r : JValue) (code : Int) (so se : List String),
      code = 0 → joinChunks so = harnessStdout r →
      closeTransformResult ⟨code, so, se⟩ = .ok r) ∧
    (∀ (code : Int) (so se : List String), code = 0 →
      parseJson (joinChunks so) = none →
      closeTransformResult ⟨code, so, se⟩ =
        .error (.resultParse (joinChunks so))) ∧
    (∀ (code : Int) (so se : List String), code ≠ 0 →
      closeTransformResult ⟨code, so, se⟩ = .error (.scriptExec (stderrKept se))) ∧
    (∀ (code : Int) (so se se' : List String), code = 0 →
      closeTransformResult ⟨code, so, se⟩ = closeTransformResult ⟨code, so, se'⟩) ∧
    (∀ (pre post : List String) (m : String), m.startsWith "LOG:" = true →
      stderrKept (pre ++ m :: post) = stderrKept (pre ++ post)) := by
  refine ⟨?_, ?_, ?_, ?_, ?_⟩
  · intro r code so se hc hso
    unfold closeTransformResult
    rw [if_pos hc, hso]
    unfold harnessStdout
    rw [parseJson_stringify]
  · intro code so se hc hp
    unfold closeTransformResult
    rw [if_pos hc, hp]
  · intro code so se hc
    unfold closeTransformResult
    rw [if_neg hc]
  · intro code so se se' hc
    unfold closeTransformResult
    rw [if_pos hc, if_pos hc]
  · intro pre post m hm
    unfold stderrKept
    rw [List.filter_append, List.filter_append, List.filter_cons]
    simp [hm]

/-- C5 witness: a script that wrote diagnostic text and returned
`ok = true` yields exactly that object. -/
theorem c5_sandbox_close_contract_witness :
    closeTransformResult ⟨0, ["\x7b\"ok\":true\x7d"], ["something went wrong\n"]⟩ =
      .ok (.jobj (.cons "ok" (.jbool true) .nil)) :=
  c5_sandbox_close_contract.1 (.jobj (.cons "ok" (.jbool true) .nil)) 0
    ["\x7b\"ok\":true\x7d"] ["something went wrong\n"] rfl rfl

/-- C6: the built-in `toUpperCase` uppercases a string directly; for an
array it uppercases exactly the string elements (any non-string element
passes through unchanged); for an object it uppercases exactly the
string-valued properties; and on `{"id":1,"name":"Alice"}` it yields
`{"id":1,"name":"ALICE"}`. -/
theorem c6_toUpperCase_contract :
    applyBuiltInFunction
      (.jobj (.cons "id" (.jnum 1) (.cons "name" (.jstr "Alice") .nil)))
      "toUpperCase" [] =
      .ok (.jobj (.cons "id" (.jnum 1) (.cons "name" (.jstr "ALICE") .nil))) ∧
    (∀ s : String,
      applyBuiltInFunction (.jstr s) "toUpperCase" [] = .ok (.jstr (jsToUpper s))) ∧
    (∀ xs : JList, applyBuiltInFunction (.jarr xs) "toUpperCase" [] =
      .ok (.jarr (xs.mapTop (elemFold jsToUpper)))) ∧
    (∀ (xs : JList) (i : Nat),
      JList.get? (JList.mapTop (elemFold jsToUpper) xs) i =
        (JList.get? xs i).map (elemFold jsToUpper)) ∧
    (∀ fs : JFields, applyBuiltInFunction (.jobj fs) "toUpperCase" [] =
      .ok (.jobj (fs.mapVals (elemFold jsToUpper)))) ∧
    (∀ (fs : JFields) (i : Nat),
      JFields.get? (JFields.mapVals (elemFold jsToUpper) fs) i =
        (JFields.get? fs i).map (fun p => (p.1, elemFold jsToUpper p.2))) ∧
    (∀ s : String, elemFold jsToUpper (.jstr s) = .jstr (jsToUpper s)) ∧
    (∀ n : Int, elemFold jsToUpper (.jnum n) = .jnum n) ∧
    (∀ b : Bool, elemFold jsToUpper (.jbool b) = .jbool b) ∧
    elemFold jsToUpper .jnull = .jnull ∧
    (∀ xs : JList, elemFold jsToUpper (.jarr xs) = .jarr xs) ∧
    (∀ fs : JFields, elemFold jsToUpper (.jobj fs) = .jobj fs) ∧
    (∀ n : Int, applyBuiltInFunction (.jnum n) "toUpperCase" [] = .ok (.jnum n)) ∧
    applyBuiltInFunction .jnull "toUpperCase" [] = .ok .jnull := by
  refine ⟨rfl, ?_, ?_, ?_, ?_, ?_, ?_, ?_, ?_, elemFold_jnull jsToUpper, ?_, ?_, ?_, rfl⟩
  · intro s
    unfold applyBuiltInFunction
    rw [if_pos rfl, caseFold_jstr]
  · intro xs
    unfold applyBuiltInFunction
    rw [if_pos rfl, caseFold_jarr]
  · intro xs i
    exact jlist_get_mapTop (elemFold jsToUpper) xs i
  · intro fs
    unfold applyBuiltInFunction
    rw [if_pos rfl, caseFold_jobj]
  · intro fs i
    exact jfields_get_mapVals (elemFold jsToUpper) fs i
  · intro s
    exact elemFold_jstr jsToUpper s
  · intro n
    exact elemFold_jnum jsToUpper n
  · intro b
    exact elemFold_jbool jsToUpper b
  · intro xs
    exact elemFold_jarr jsToUpper xs
  · intro fs
    exact elemFold_jobj jsToUpper fs
  · intro n
    unfold applyBuiltInFunction
    rw [if_pos rfl, caseFold_jnum]

/-- C7: the built-in `template` replaces every occurrence of the
placeholder of each option key (any whitespace around the key) with the
JS string conversion of the option value, leaves text without the
placeholder untouched, and returns non-string content unchanged; on
`Hello {{ name }}` with `name = "World"` it yields `Hello World`. -/
theorem c7_template_contract :
    applyBuiltInFunction (.jstr "Hello \x7b\x7b name \x7d\x7d") "template"
      [("name", .jstr "World")] = .ok (.jstr "Hello World") ∧
    applyBuiltInFunction (.jstr "\x7b\x7bname\x7d\x7d and \x7b\x7b  name  \x7d\x7d")
      "template" [("name", .jstr "World")] = .ok (.jstr "World and World") ∧
    (∀ (n : Int) (opts : List (String × JValue)),
      applyBuiltInFunction (.jnum n) "template" opts = .ok (.jnum n)) ∧
    (∀ (b : Bool) (opts : List (String × JValue)),
      applyBuiltInFunction (.jbool b) "template" opts = .ok (.jbool b)) ∧
    (∀ opts : List (String × JValue),
      applyBuiltInFunction .jnull "template" opts = .ok .jnull) ∧
    (∀ (xs : JList) (opts : List (String × JValue)),
      applyBuiltInFunction (.jarr xs) "template" opts = .ok (.jarr xs)) ∧
    (∀ (fs : JFields) (opts : List (String × JValue)),
      applyBuiltInFunction (.jobj fs) "template" opts = .ok (.jobj fs)) ∧
    (∀ (key : String) (v : JValue) (s : String),
      noKeyOccur key.data s.data = true →
      applyBuiltInFunction (.jstr s) "template" [(key, v)] = .ok (.jstr s)) := by
  refine ⟨rfl, rfl, ?_, ?_, ?_, ?_, ?_, ?_⟩
  · intro n opts
    unfold applyBuiltInFunction
    rw [if_neg (by decide), if_neg (by decide), if_pos rfl]
  · intro b opts
    unfold applyBuiltInFunction
    rw [if_neg (by decide), if_neg (by decide), if_pos rfl]
  · intro opts
    unfold applyBuiltInFunction
    rw [if_neg (by decide), if_neg (by decide), if_pos rfl]
  · intro xs opts
    unfold applyBuiltInFunction
    rw [if_neg (by decide), if_neg (by decide), if_pos rfl]
  · intro fs opts
    unfold applyBuiltInFunction
    rw [if_neg (by decide), if_neg (by decide), if_pos rfl]
  · intro key v s h
    unfold applyBuiltInFunction
    rw [if_neg (by decide), if_neg (by decide), if_pos rfl]
    show Except.ok (JValue.jstr (replaceTemplate key (jsString v) s)) = _
    unfold replaceTemplate
    rw [replaceCore_no_occur key.data (jsString v).data s.data.length s.data
      (noKeyOccur_all key.data s.data h), stringMk_data]

/-- C7 witness: text without the option's placeholder is untouched. -/
theorem c7_template_contract_witness :
    applyBuiltInFunction (.jstr "Hello") "template" [("other", .jstr "World")] =
      .ok (.jstr "Hello") :=
  c7_template_contract.2.2.2.2.2.2.2 "other" (.jstr "World") "Hello" (by decide)

/-- C8: CSV parsing splits on newline, discards blank lines, takes the
first non-blank line as the comma-split trimmed header row, and maps
each later row positionally to the headers with trimmed values and the
empty string for missing trailing fields; `a,b\n1,2\n3,4` parses to
`[{"a":"1","b":"2"},{"a":"3","b":"4"}]`. -/
theorem c8_csv_parse_contract :
    csvParseContent "a,b\n1,2\n3,4" =
      .jarr (.cons (.jobj (.cons "a" (.jstr "1") (.cons "b" (.jstr "2") .nil)))
        (.cons (.jobj (.cons "a" (.jstr "3") (.cons "b" (.jstr "4") .nil))) .nil)) ∧
    parseFileContent_run "a,b\n1,2\n3,4" ".csv" = csvParseContent "a,b\n1,2\n3,4" ∧
    csvParseContent " a , b \n\n 1 ,2 \n3" =
      .jarr (.cons (.jobj (.cons "a" (.jstr "1") (.cons "b" (.jstr "2") .nil)))
        (.cons (.jobj (.cons "a" (.jstr "3") (.cons "b" (.jstr "") .nil))) .nil)) ∧
    (∀ headers values : List String,
      JFields.keys (csvRowFields headers values) = headers) ∧
    (∀ content : String,
      (match csvParseContent content with
       | .jarr xs => JList.length xs
       | _ => 0) = (csvDataLines content).length) :=
  ⟨rfl, rfl, rfl, csvRowFields_keys, csvParseContent_row_count⟩

/-- C9 (counterexample): for a `.json` input holding the top-level JSON
string `"a b"`, an identity (filter) chain writes the bare characters
`a b` — `writeOutputFile` stringifies only objects and arrays and writes
other values via `String(content)` — and that output is not well-formed
JSON at all, so the round-trip law fails for top-level strings. -/
theorem c9_counterexample :
    parseJson "\"a b\"" = some (.jstr "a b") ∧
    runWorkflow_v1 tfUnused false [filterStep] [⟨"d", ".json", "\"a b\""⟩] 2 [] =
      ([("d.json", "a b")], none) ∧
    parseJson "a b" = none :=
  ⟨rfl, rfl, rfl⟩

/-- C9 (amended): for a well-formed `.json` input whose top-level value
is not a string, an identity (filter) chain writes a serialization of
the parsed value that parses back to exactly that value — the
round-trip law holds modulo serialization whitespace for non-string
top-level values. -/
theorem c9_roundtrip_non_string (s : String) (v : JValue)
    (hp : parseJson s = some v) (hs : isStrValue v = false) :
    ∀ (base : String) (tf : TransformFn),
      runWorkflow_v1 tf false [filterStep] [⟨base, ".json", s⟩] 2 [] =
        ([(base ++ ".json", writeOutputFile_run v 2)], none) ∧
      parseJson (writeOutputFile_run v 2) = some v := by
  intro base tf
  constructor
  · have hstep : runWorkflowStep_v1 tf ⟨base, ".json", s⟩ filterStep 2 [] =
        .ok [(base ++ ".json", writeOutputFile_run v 2)] := by
      unfold runWorkflowStep_v1
      rw [if_neg (by simp [filterStep, fsLookup])]
      simp only [show parseFileContent_run (InFile.raw ⟨base, ".json", s⟩)
          (InFile.ext ⟨base, ".json", s⟩) = v from by
            unfold parseFileContent_run
            rw [if_pos rfl, hp],
        show stepExec tf filterStep v = .ok v from by
          unfold stepExec
          rw [if_neg (by decide), if_neg (by decide),
            if_pos (show filterStep.type = "filter" from rfl)]]
      rfl
    unfold runWorkflow_v1
    rw [show forceSteps false [filterStep] = [filterStep] from by
      unfold forceSteps
      simp]
    simp only [runFiles_v1_cons, runFileSteps_v1_cons, hstep, runFileSteps_v1_nil,
      runFiles_v1_nil]
  · cases v with
    | jnull => rfl
    | jbool b => cases b <;> rfl
    | jnum n =>
      rw [writeOutput_run_jnum]
      exact parseJson_int n
    | jstr t =>
      rw [show isStrValue (.jstr t) = true from rfl] at hs
      exact absurd hs (by decide)
    | jarr xs =>
      rw [writeOutput_run_jarr]
      exact parseJson_stringify_newline 2 (.jarr xs)
    | jobj fs =>
      rw [writeOutput_run_jobj]
      exact parseJson_stringify_newline 2 (.jobj fs)

/-- C9 witness: the round trip at a concrete object input. -/
theorem c9_roundtrip_non_string_witness :
    runWorkflow_v1 tfUnused false [filterStep]
      [⟨"w9", ".json", "\x7b\"k\": [1, 2]\x7d"⟩] 2 [] =
      ([("w9.json", writeOutputFile_run
        (.jobj (.cons "k" (.jarr (.cons (.jnum 1) (.cons (.jnum 2) .nil))) .nil)) 2)],
       none) ∧
    parseJson (writeOutputFile_run
      (.jobj (.cons "k" (.jarr (.cons (.jnum 1) (.cons (.jnum 2) .nil))) .nil)) 2) =
      some (.jobj (.cons "k" (.jarr (.cons (.jnum 1) (.cons (.jnum 2) .nil))) .nil)) :=
  c9_roundtrip_non_string "\x7b\"k\": [1, 2]\x7d"
    (.jobj (.cons "k" (.jarr (.cons (.jnum 1) (.cons (.jnum 2) .nil))) .nil))
    rfl rfl "w9" tfUnused

/-- C10: executing a step whose type is `filter` returns its input
content unchanged whatever its function name and options are, and a
filter step's written output is the parsed input unchanged up to
serialization. -/
theorem c10_filter_step_identity :
    (∀ (tf : TransformFn) (nm fn : String) (opts : List (String × JValue))
      (sk : Bool) (content : JValue),
      stepExec tf ⟨nm, "filter", fn, opts, sk⟩ content = .ok content) ∧
    (∀ (tf : TransformFn) (nm fn : String) (opts : List (String × JValue))
      (file : InFile) (ji : Nat) (st : FileSys),
      runWorkflowStep_v1 tf file ⟨nm, "filter", fn, opts, false⟩ ji st =
        .ok (fsWrite st file.fileName
          (writeOutputFile_run (parseFileContent_run file.raw file.ext) ji))) := by
  have hexec : ∀ (tf : TransformFn) (nm fn : String) (opts : List (String × JValue))
      (sk : Bool) (content : JValue),
      stepExec tf ⟨nm, "filter", fn, opts, sk⟩ content = .ok content := by
    intro tf nm fn opts sk content
    rfl
  refine ⟨hexec, ?_⟩
  intro tf nm fn opts file ji st
  unfold runWorkflowStep_v1
  rw [if_neg (by simp)]
  simp only [hexec]

end Transforma
